import Mathlib

/-!
# Verification of the PVM core engine (pvm-rust)

Shallow embedding of the parts of `packages/pvm-rust/src` that the claims
C1..C10 concern: the variable-length natural / fixed-length / sequence codecs
(`codec/impl_.rs`), the paged RAM (`ram.rs`), selected instruction handlers
(`instructions/arithmetic.rs`, `instructions/control_flow.rs`,
`instructions/base.rs`), the WRITE / SOLICIT / TRANSFER host functions
(`host_functions/...`), the program parser (`parser.rs`) and the interpreter
step (`state_wrapper.rs::next_step_impl`).

Machine integers are embedded as `Nat` with explicit reductions `% 2^w` where
the Rust code wraps or casts; Rust's `saturating_sub` on unsigned integers is
exactly `Nat` subtraction; bit operations on masks are written with the
equivalent arithmetic (`x & ((1 << k) - 1)` as `x % 2^k`, `x >> k` as
`x / 2^k`, `x << k` as `x * 2^k`, and `hi | lo` as `hi + lo` when the two
operands occupy disjoint bit ranges, i.e. `hi` is a multiple of `2^k` and
`lo < 2^k`). Byte strings are `List Nat` whose elements are below 256.
-/

namespace PvmRust

/-! ## Shared constants (`config.rs`) -/

/-- `PAGE_SIZE = 4096` (config.rs). -/
def PAGE_SIZE : Nat := 4096
/-- `HALT_ADDRESS = 4294901760 = 2^32 - 2^16` (config.rs). -/
def HALT_ADDRESS : Nat := 4294901760
/-- `C_ITEM_DEPOSIT = 10` (config.rs). -/
def C_ITEM_DEPOSIT : Nat := 10
/-- `C_BYTE_DEPOSIT = 1` (config.rs). -/
def C_BYTE_DEPOSIT : Nat := 1
/-- `C_BASE_DEPOSIT = 100` (config.rs). -/
def C_BASE_DEPOSIT : Nat := 100
/-- `C_MEMO_SIZE = 128` (config.rs). -/
def C_MEMO_SIZE : Nat := 128
/-- `REG_NONE = u64::MAX = 2^64 - 1` (config.rs). -/
def REG_NONE : Nat := 2 ^ 64 - 1
/-- `REG_FULL = u64::MAX - 4 = 2^64 - 5` (config.rs). -/
def REG_FULL : Nat := 2 ^ 64 - 5

/-! ## Little-endian byte helpers

The Rust code repeatedly runs loops of the form
`value |= u64::from(b) << (i * 8)` over a byte slice (decoding) and
`out[i] = (value >> (i * 8)) as u8` (encoding).  `leVal` and `leBytes` are
those two loops. -/

/-- Little-endian value of a byte list: the fold
`value |= byte << (8 * index)` of the source, written recursively. -/
def leVal : List Nat → Nat
  | [] => 0
  | b :: bs => b + 2 ^ 8 * leVal bs

/-- Little-endian bytes of a value: byte `i` is `(value >> (8*i)) as u8`. -/
def leBytes (count value : Nat) : List Nat :=
  (List.range count).map fun i => value / 2 ^ (8 * i) % 2 ^ 8

theorem leBytes_length (count value : Nat) : (leBytes count value).length = count := by
  simp [leBytes]

theorem leBytes_succ (count value : Nat) :
    leBytes (count + 1) value = value % 2 ^ 8 :: leBytes count (value / 2 ^ 8) := by
  simp only [leBytes, List.range_succ_eq_map, List.map_cons, List.map_map]
  congr 1
  · simp
  apply List.map_congr_left
  intro i _
  simp only [Function.comp_apply]
  rw [Nat.div_div_eq_div_mul]
  congr 2
  rw [← pow_add]
  congr 1
  omega

theorem leVal_leBytes (count value : Nat) :
    leVal (leBytes count value) = value % 2 ^ (8 * count) := by
  induction count generalizing value with
  | zero => simp [leBytes, leVal, Nat.mod_one]
  | succ n ih =>
      rw [leBytes_succ, leVal, ih]
      have hM : 2 ^ (8 * (n + 1)) = 2 ^ 8 * 2 ^ (8 * n) := by
        rw [← pow_add]; congr 1; omega
      rw [hM]
      have h1 : value % (2 ^ 8 * 2 ^ (8 * n)) / 2 ^ 8 = value / 2 ^ 8 % 2 ^ (8 * n) :=
        Nat.mod_mul_right_div_self value (2 ^ 8) (2 ^ (8 * n))
      have h2 : value % (2 ^ 8 * 2 ^ (8 * n)) % 2 ^ 8 = value % 2 ^ 8 :=
        Nat.mod_mod_of_dvd value ⟨2 ^ (8 * n), rfl⟩
      have h3 := Nat.div_add_mod (value % (2 ^ 8 * 2 ^ (8 * n))) (2 ^ 8)
      omega

/-! ## Variable-length natural codec (`codec/impl_.rs:74-157`)

`decode_natural` / `encode_natural`, Gray Paper Eq 30-38.  A decoding result
`DecodingResult { value, consumed }` is embedded as a pair `(value, consumed)`.
-/

/-- The `for test_l in 1..=8` search loop of `decode_natural`: returns the
first `testL` whose first-byte interval `[min, max]` contains `first`, or 0
when none does (the Rust loop leaves `l = 0`). -/
def decFindL (first : Nat) (testL : Nat) : Nat :=
  if h : testL ≤ 8 then
    let minPfx := 256 - 2 ^ (8 - testL)
    let maxSuffix := (2 ^ (7 * (testL + 1)) - 1) / 2 ^ (8 * testL)
    let maxPfx := minPfx + maxSuffix
    if minPfx ≤ first ∧ first ≤ maxPfx then testL else decFindL first (testL + 1)
  else 0
termination_by 9 - testL

/-- `decode_natural` (codec/impl_.rs:74).  `high_bits | low_bits` is written
`high_bits + low_bits`: `high_bits` is a multiple of `2^(8l)` and, on byte
input (every element < 256), `low_bits < 2^(8l)`, so the bit-or is addition. -/
def decode_natural (data : List Nat) : Option (Nat × Nat) :=
  match data with
  | [] => none
  | first :: rest =>
    if first = 0 then some (0, 1)
    else if first = 255 then
      if data.length < 9 then none
      else some (leVal (rest.take 8), 9)
    else if 1 ≤ first ∧ first ≤ 127 then some (first, 1)
    else
      -- l = decFindL first 1; prefix_base = 256 - 2^(8-l);
      -- high_bits = (first - prefix_base) << (8l); low_bits = LE(data[1..1+l])
      if decFindL first 1 = 0 then none
      else if data.length < 1 + decFindL first 1 then none
      else
        some ((first - (256 - 2 ^ (8 - decFindL first 1))) * 2 ^ (8 * decFindL first 1)
          + leVal (rest.take (decFindL first 1)), 1 + decFindL first 1)

/-- The `while l <= 8 && value >= (1 << (7 * (l + 1)))` loop of
`encode_natural`, started at `l = 1`. -/
def encFindL (value : Nat) (l : Nat) : Nat :=
  if h : l ≤ 8 ∧ 2 ^ (7 * (l + 1)) ≤ value then encFindL value (l + 1) else l
termination_by 9 - l
decreasing_by omega

/-- `encode_natural` (codec/impl_.rs:127).  The `prefix as u8` cast is the
explicit `% 2^8`. -/
def encode_natural (value : Nat) : List Nat :=
  if value = 0 then [0]
  else if 2 ^ 56 ≤ value then 255 :: leBytes 8 value
  else if 1 ≤ value ∧ value ≤ 127 then [value]
  else
    -- l = encFindL value 1; prefix_base = (1 << 8) - (1 << (8 - l));
    -- prefix = prefix_base + (value >> (8l)); suffix = value & ((1 << (8l)) - 1);
    -- result[0] = prefix as u8, result[1..] = LE bytes of suffix
    (2 ^ 8 - 2 ^ (8 - encFindL value 1) + value / 2 ^ (8 * encFindL value 1)) % 2 ^ 8
      :: leBytes (encFindL value 1) (value % 2 ^ (8 * encFindL value 1))

/-- `(2^m * 2^n - 1) / 2^m = 2^n - 1`: evaluates the decoder's
`max_suffix` expression. -/
theorem pow_mul_pow_sub_one_div (m n : Nat) :
    (2 ^ m * 2 ^ n - 1) / 2 ^ m = 2 ^ n - 1 := by
  have hm : 0 < 2 ^ m := Nat.pos_pow_of_pos m (by omega)
  have hn : 0 < 2 ^ n := Nat.pos_pow_of_pos n (by omega)
  have hprod : 2 ^ m ≤ 2 ^ m * 2 ^ n := Nat.le_mul_of_pos_right _ hn
  have hmul : 2 ^ m * (2 ^ n - 1) = 2 ^ m * 2 ^ n - 2 ^ m * 1 := Nat.mul_sub _ _ _
  have h : 2 ^ m * 2 ^ n - 1 = (2 ^ m - 1) + 2 ^ m * (2 ^ n - 1) := by omega
  rw [h, Nat.add_mul_div_left _ _ hm, Nat.div_eq_of_lt (by omega)]
  omega

theorem encFindL_eq (v k : Nat) (hk1 : 1 ≤ k) (hk7 : k ≤ 7)
    (hlo : 2 ^ (7 * k) ≤ v) (hhi : v < 2 ^ (7 * (k + 1))) :
    encFindL v 1 = k := by
  suffices h : ∀ d j, 1 ≤ j → j ≤ k → k - j = d → encFindL v j = k by
    exact h (k - 1) 1 le_rfl hk1 rfl
  intro d
  induction d with
  | zero =>
      intro j _ hjk hd
      have hj : j = k := by omega
      subst hj
      rw [encFindL]
      rw [dif_neg (by omega)]
  | succ n ih =>
      intro j hj1 hjk hd
      rw [encFindL]
      have hcond : j ≤ 8 ∧ 2 ^ (7 * (j + 1)) ≤ v := by
        refine ⟨by omega, le_trans ?_ hlo⟩
        exact Nat.pow_le_pow_right (by omega) (by omega)
      rw [dif_pos hcond]
      exact ih (j + 1) (by omega) (by omega) (by omega)

theorem decFindL_step (first testL : Nat) (h : testL ≤ 8) :
    decFindL first testL =
      if 256 - 2 ^ (8 - testL) ≤ first ∧
          first ≤ 256 - 2 ^ (8 - testL) + (2 ^ (7 * (testL + 1)) - 1) / 2 ^ (8 * testL)
        then testL else decFindL first (testL + 1) := by
  rw [decFindL, dif_pos h]

theorem decFindL_eq (b k : Nat) (hk1 : 1 ≤ k) (hk7 : k ≤ 7)
    (hlo : 256 - 2 ^ (8 - k) ≤ b) (hhi : b ≤ 255 - 2 ^ (7 - k)) :
    decFindL b 1 = k := by
  have hmax : ∀ t, t ≤ 7 →
      (2 ^ (7 * (t + 1)) - 1) / 2 ^ (8 * t) = 2 ^ (7 - t) - 1 := by
    intro t ht
    have h7 : 7 * (t + 1) = 8 * t + (7 - t) := by omega
    rw [h7, pow_add, pow_mul_pow_sub_one_div]
  suffices h : ∀ d j, 1 ≤ j → j ≤ k → k - j = d → decFindL b j = k by
    exact h (k - 1) 1 le_rfl hk1 rfl
  intro d
  induction d with
  | zero =>
      intro j hj1 hjk hd
      have hj : j = k := by omega
      subst hj
      rw [decFindL_step b j (by omega)]
      rw [if_pos]
      refine ⟨hlo, ?_⟩
      rw [hmax j (by omega)]
      have h1 : (1 : Nat) ≤ 2 ^ (7 - j) := Nat.one_le_two_pow
      have h2 : 2 ^ (8 - j) = 2 * 2 ^ (7 - j) := by
        rw [← pow_succ']
        congr 1
        omega
      have h3 : 2 ^ (7 - j) ≤ 2 ^ 6 := Nat.pow_le_pow_right (by omega) (by omega)
      omega
  | succ n ih =>
      intro j hj1 hjk hd
      rw [decFindL_step b j (by omega)]
      rw [if_neg]
      · exact ih (j + 1) (by omega) (by omega) (by omega)
      · intro hc
        obtain ⟨-, hub⟩ := hc
        rw [hmax j (by omega)] at hub
        -- b ≥ 256 - 2^(8-k) > 255 - 2^(7-j) because 7 - j ≥ 8 - k
        have hmono : 2 ^ (8 - k) ≤ 2 ^ (7 - j) :=
          Nat.pow_le_pow_right (by omega) (by omega)
        have h1 : (1 : Nat) ≤ 2 ^ (8 - k) := Nat.one_le_two_pow
        have h2 : 2 ^ (8 - j) = 2 * 2 ^ (7 - j) := by
          rw [← pow_succ']
          congr 1
          omega
        have h3 : 2 ^ (8 - k) ≤ 2 ^ 7 := Nat.pow_le_pow_right (by omega) (by omega)
        have h4 : 2 ^ (7 - j) ≤ 2 ^ 6 := Nat.pow_le_pow_right (by omega) (by omega)
        omega

/-- The middle (prefixed) case of the round trip, for the unique `k`
with `2^(7k) ≤ v < 2^(7(k+1))`. -/
theorem decode_encode_natural_middle (v k : Nat) (hk1 : 1 ≤ k) (hk7 : k ≤ 7)
    (hlo : 2 ^ (7 * k) ≤ v) (hhi : v < 2 ^ (7 * (k + 1))) (hv128 : 128 ≤ v) :
    decode_natural (encode_natural v) = some (v, (encode_natural v).length) := by
  have hv0 : v ≠ 0 := by omega
  have hv56 : ¬ 2 ^ 56 ≤ v := by
    have : 2 ^ (7 * (k + 1)) ≤ 2 ^ 56 := Nat.pow_le_pow_right (by omega) (by omega)
    omega
  have hv127 : ¬ (1 ≤ v ∧ v ≤ 127) := by omega
  have hposk : 0 < 2 ^ (8 * k) := Nat.pos_pow_of_pos _ (by omega)
  obtain ⟨q, hq⟩ : ∃ q, q = v / 2 ^ (8 * k) := ⟨_, rfl⟩
  obtain ⟨r, hr⟩ : ∃ r, r = v % 2 ^ (8 * k) := ⟨_, rfl⟩
  -- the high quotient is below 2^(7-k), so the first byte is below 256
  have hdivlt : q < 2 ^ (7 - k) := by
    rw [hq, Nat.div_lt_iff_lt_mul hposk, ← pow_add]
    have h : 7 - k + 8 * k = 7 * (k + 1) := by omega
    rw [h]
    exact hhi
  have hpowsplit : 2 ^ (8 - k) = 2 * 2 ^ (7 - k) := by
    rw [← pow_succ']
    congr 1
    omega
  have hple : 2 ^ (8 - k) ≤ 2 ^ 8 := Nat.pow_le_pow_right (by omega) (by omega)
  have h7le : (1 : Nat) ≤ 2 ^ (7 - k) := Nat.one_le_two_pow
  have h7hi : 2 ^ (8 - k) ≤ 2 ^ 7 := Nat.pow_le_pow_right (by omega) (by omega)
  have hpfxlt : 2 ^ 8 - 2 ^ (8 - k) + q < 2 ^ 8 := by omega
  have hmod : (2 ^ 8 - 2 ^ (8 - k) + q) % 2 ^ 8
      = 2 ^ 8 - 2 ^ (8 - k) + q := Nat.mod_eq_of_lt hpfxlt
  have henc : encode_natural v = (2 ^ 8 - 2 ^ (8 - k) + q) :: leBytes k r := by
    rw [hq, hr, encode_natural, if_neg hv0, if_neg hv56, if_neg hv127]
    rw [encFindL_eq v k hk1 hk7 hlo hhi, ← hq, hmod]
  have hp128 : 128 ≤ 2 ^ 8 - 2 ^ (8 - k) + q := by omega
  have hp255 : 2 ^ 8 - 2 ^ (8 - k) + q ≤ 255 - 2 ^ (7 - k) := by omega
  have hlen : (leBytes k r).length = k := leBytes_length _ _
  have htake : (leBytes k r).take k = leBytes k r := List.take_of_length_le (by omega)
  have hrlt : r < 2 ^ (8 * k) := hr ▸ Nat.mod_lt _ hposk
  rw [henc]
  simp only [decode_natural, List.length_cons, hlen]
  rw [if_neg (by omega), if_neg (by omega), if_neg (by omega)]
  rw [decFindL_eq (2 ^ 8 - 2 ^ (8 - k) + q) k hk1 hk7 (by omega) hp255]
  rw [if_neg (by omega), if_neg (by omega)]
  rw [htake, leVal_leBytes, Nat.mod_eq_of_lt hrlt]
  have hsub : 2 ^ 8 - 2 ^ (8 - k) + q - (256 - 2 ^ (8 - k)) = q := by omega
  rw [hsub, hq, hr, Nat.div_add_mod']
  simp [Nat.add_comm]

/-- **C3.** Natural codec round-trip: for every `u64` value `v`,
`decode_natural (encode_natural v)` yields `v` and consumes exactly the
encoded length; `0` encodes as the single byte `0x00`; values `1..=127`
encode as the single byte equal to the value; every value `≥ 2^56` encodes
in the 9-octet form `0xFF` followed by 8 little-endian octets. -/
theorem C3_natural_codec_round_trip (v : Nat) (hv : v < 2 ^ 64) :
    decode_natural (encode_natural v) = some (v, (encode_natural v).length) ∧
    encode_natural 0 = [0] ∧
    (1 ≤ v ∧ v ≤ 127 → encode_natural v = [v]) ∧
    (2 ^ 56 ≤ v → encode_natural v = 255 :: leBytes 8 v) := by
  refine ⟨?_, by rfl, ?_, ?_⟩
  · by_cases h0 : v = 0
    · subst h0
      rfl
    by_cases h56 : 2 ^ 56 ≤ v
    · have henc : encode_natural v = 255 :: leBytes 8 v := by
        rw [encode_natural, if_neg h0, if_pos h56]
      rw [henc, decode_natural]
      have hlen : (leBytes 8 v).length = 8 := leBytes_length _ _
      rw [if_neg (by omega), if_pos rfl, if_neg (by simp [hlen])]
      have htake : (leBytes 8 v).take 8 = leBytes 8 v := List.take_of_length_le (by omega)
      rw [htake, leVal_leBytes]
      simp only [List.length_cons, hlen]
      rw [Nat.mod_eq_of_lt hv]
    by_cases h127 : v ≤ 127
    · have henc : encode_natural v = [v] := by
        rw [encode_natural, if_neg h0, if_neg h56, if_pos ⟨by omega, h127⟩]
      rw [henc, decode_natural]
      rw [if_neg h0, if_neg (by omega), if_pos ⟨by omega, h127⟩]
      rfl
    -- middle range: find the interval index k ∈ [1,7]
    · have hv128 : 128 ≤ v := by omega
      have hv56' : v < 2 ^ 56 := by omega
      by_cases h1 : v < 2 ^ 14
      · exact decode_encode_natural_middle v 1 (by omega) (by omega) (by omega) (by omega) hv128
      by_cases h2 : v < 2 ^ 21
      · exact decode_encode_natural_middle v 2 (by omega) (by omega) (by omega) (by omega) hv128
      by_cases h3 : v < 2 ^ 28
      · exact decode_encode_natural_middle v 3 (by omega) (by omega) (by omega) (by omega) hv128
      by_cases h4 : v < 2 ^ 35
      · exact decode_encode_natural_middle v 4 (by omega) (by omega) (by omega) (by omega) hv128
      by_cases h5 : v < 2 ^ 42
      · exact decode_encode_natural_middle v 5 (by omega) (by omega) (by omega) (by omega) hv128
      by_cases h6 : v < 2 ^ 49
      · exact decode_encode_natural_middle v 6 (by omega) (by omega) (by omega) (by omega) hv128
      · exact decode_encode_natural_middle v 7 (by omega) (by omega) (by omega) (by omega) hv128
  · intro ⟨ha, hb⟩
    rw [encode_natural, if_neg (by omega), if_neg (by omega), if_pos ⟨ha, hb⟩]
  · intro h56
    rw [encode_natural, if_neg (by omega), if_pos h56]

/-- Witness for C3 at `v = 300` and the byte-shape conjuncts at their
respective inputs. -/
theorem C3_witness :
    decode_natural (encode_natural 300) = some (300, (encode_natural 300).length) ∧
    encode_natural 300 ≠ [] := by
  refine ⟨(C3_natural_codec_round_trip 300 (by norm_num)).1, by decide⟩

/-! ## Fixed-length / variable-sequence codecs (`codec/impl_.rs:395-524`) -/

/-- `decode_fixed_length` (codec/impl_.rs:397): little-endian value of the
first `length` bytes; `None` when the buffer is shorter. -/
def decode_fixed_length (data : List Nat) (length : Nat) : Option (Nat × Nat) :=
  if data.length < length then none
  else some (leVal (data.take length), length)

/-- `encode_fixed_length` (codec/impl_.rs:411): `length` bytes, the first
`min length 8` of them the little-endian octets of the value wrapped
modulo `2^(8·length)`, the rest zero. -/
def encode_fixed_length (value : Nat) (length : Nat) : List Nat :=
  if length = 0 then []
  else
    let wrapped :=
      match length with
      | 1 => value % 256
      | 2 => value % 65536
      | 4 => value % 4294967296
      | 8 => value
      | _ => if 64 ≤ 8 * length then value else value % 2 ^ (8 * length)
    leBytes (min length 8) wrapped ++ List.replicate (length - min length 8) 0

/-- The `for _ in 0..length` element loop of `decode_variable_sequence`
(codec/impl_.rs:503-507): decode `n` elements, advancing the input slice by
each element's consumed count (`current.get(consumed..)?`). -/
def decode_variable_sequence_loop {α : Type} (elemDec : List Nat → Option (α × Nat)) :
    Nat → List Nat → Option (List α × List Nat)
  | 0, current => some ([], current)
  | n + 1, current =>
      match elemDec current with
      | none => none
      | some (v, consumed) =>
          if consumed ≤ current.length then
            match decode_variable_sequence_loop elemDec n (current.drop consumed) with
            | none => none
            | some (vs, final) => some (v :: vs, final)
          else none

/-- `decode_variable_sequence` (codec/impl_.rs:493): `Nat(n)` followed by `n`
elements of the caller-supplied element decoder; consumed =
`start_len - current.len()`. -/
def decode_variable_sequence {α : Type} (data : List Nat)
    (elemDec : List Nat → Option (α × Nat)) : Option (List α × Nat) :=
  match decode_natural data with
  | none => none
  | some (length, consumed) =>
      match decode_variable_sequence_loop elemDec length (data.drop consumed) with
      | none => none
      | some (result, final) => some (result, data.length - final.length)

/-- `encode_variable_sequence` (codec/impl_.rs:516): `Nat(len)` followed by,
for each element, `Nat(el.len) || el` (each element as `var{bytes}`). -/
def encode_variable_sequence (elements : List (List Nat)) : List Nat :=
  encode_natural elements.length
    ++ (elements.map fun el => encode_natural el.length ++ el).flatten

/-! ## Request-slot timeslot codec (`codec/impl_.rs:1204-1221`) -/

/-- `encode_request_timeslots` (codec/impl_.rs:1206): each timeslot encoded
with `encode_fixed_length(t, 4)`, the list wrapped by
`encode_variable_sequence`. -/
def encode_request_timeslots (timeslots : List Nat) : List Nat :=
  encode_variable_sequence (timeslots.map fun t => encode_fixed_length t 4)

/-- `decode_request_timeslots` (codec/impl_.rs:1216): a variable sequence
whose element decoder is `decode_fixed_length(data, 4)` (the `as u32` cast is
the `% 2^32`). -/
def decode_request_timeslots (value : List Nat) : Option (List Nat) :=
  (decode_variable_sequence value fun data =>
      (decode_fixed_length data 4).map fun r => (r.1 % 2 ^ 32, r.2)).map (·.1)

/-- **C2.** The request-slot timeslot codec does NOT round-trip: the claim
`decode_request_timeslots (encode_request_timeslots ts) = some ts` fails for
`ts = [5]`.  `encode_request_timeslots` writes each element as `var{bytes}`
(a per-element `Nat(4)` length byte), while `decode_request_timeslots`
decodes raw 4-byte elements with no per-element prefix, so the encoded
`[0x01, 0x04, 0x05, 0, 0, 0]` decodes to `[1284]`, not `[5]`.  The two
functions are used as a mutually-inverse pair by SOLICIT/FORGET/QUERY, so
the code contradicts its own documented request-slot format. -/
theorem C2_request_timeslots_round_trip_fails :
    encode_request_timeslots [5] = [1, 4, 5, 0, 0, 0] ∧
    decode_request_timeslots (encode_request_timeslots [5]) = some [1284] ∧
    decode_request_timeslots (encode_request_timeslots [5]) ≠ some [5] := by
  refine ⟨by decide, by decide, by decide⟩

/-! ## Paged RAM (`ram.rs`, result types from `types.rs`)

`HashMap<u32, _>` maps are embedded as association lists with first-match
lookup and replace-on-insert, which realises exactly the map interface the
code uses (`get`, `insert`, `entry().or_insert_with`). -/

/-- `MemoryAccessType` (types.rs:180). -/
inductive MemoryAccessType where
  | none
  | read
  | write
deriving DecidableEq, Repr

/-- Association-list lookup (first match): `HashMap::get`. -/
def lookupA {β : Type} : List (Nat × β) → Nat → Option β
  | [], _ => Option.none
  | (k, v) :: rest, key => if k = key then some v else lookupA rest key

/-- Association-list insert (replace first match or append): `HashMap::insert`. -/
def insertA {β : Type} : List (Nat × β) → Nat → β → List (Nat × β)
  | [], key, value => [(key, value)]
  | (k, v) :: rest, key, value =>
      if k = key then (key, value) :: rest else (k, v) :: insertA rest key value

/-- `FaultCheckResult` (types.rs:66). -/
structure FaultCheckResult where
  success : Bool
  faultAddress : Nat
deriving DecidableEq, Repr

/-- `ReadResult` (types.rs:49). -/
structure ReadResult where
  data : Option (List Nat)
  faultAddress : Nat
deriving DecidableEq, Repr

/-- `WriteResult` (types.rs:83). -/
structure WriteResult where
  hasFault : Bool
  faultAddress : Nat
deriving DecidableEq, Repr

/-- The fields of `PvmRam` (ram.rs:17) that the byte-level interface reads or
writes: the sparse page map, the access-rights map, and the last-load/store
trace fields.  The region-boundary bookkeeping fields do not participate in
`read_octets`/`write_octets` and are omitted. -/
structure PvmRam where
  pages : List (Nat × List Nat)
  pageAccess : List (Nat × MemoryAccessType)
  lastLoadAddress : Nat
  lastLoadValue : Nat
  lastStoreAddress : Nat
  lastStoreValue : Nat
deriving DecidableEq, Repr

/-- `self.page_access.get(&page_index).unwrap_or(&MemoryAccessType::None)`. -/
def accessOf (ram : PvmRam) (pageIndex : Nat) : MemoryAccessType :=
  (lookupA ram.pageAccess pageIndex).getD .none

/-- The `for page_index in start_page..=end_page` scan shared by
`is_readable_with_fault` / `is_writable_with_fault`: the first page in the
inclusive range whose access fails the check. -/
def firstBadPage (ram : PvmRam) (bad : MemoryAccessType → Bool)
    (startPage endPage : Nat) : Option Nat :=
  (List.range' startPage (endPage + 1 - startPage)).find? fun p => bad (accessOf ram p)

/-- `is_readable_with_fault` (ram.rs:176): size 0 always succeeds; otherwise
the first access-`None` page in `[address/PS, (address+size-1)/PS]` faults
with its page base.  `address + size` is the u32 wrapping addition,
`end_address.saturating_sub(1)` is `Nat` subtraction. -/
def is_readable_with_fault (ram : PvmRam) (address size : Nat) : FaultCheckResult :=
  if size = 0 then ⟨true, 0⟩
  else
    match firstBadPage ram (fun a => a = .none)
        (address / PAGE_SIZE) (((address + size) % 2 ^ 32 - 1) / PAGE_SIZE) with
    | some p => ⟨false, p * PAGE_SIZE⟩
    | Option.none => ⟨true, 0⟩

/-- `is_writable_with_fault` (ram.rs:252): any access other than `Write`
fails. -/
def is_writable_with_fault (ram : PvmRam) (address size : Nat) : FaultCheckResult :=
  if size = 0 then ⟨true, 0⟩
  else
    match firstBadPage ram (fun a => ¬ a = .write)
        (address / PAGE_SIZE) (((address + size) % 2 ^ 32 - 1) / PAGE_SIZE) with
    | some p => ⟨false, p * PAGE_SIZE⟩
    | Option.none => ⟨true, 0⟩

/-- The page-copy loop of `read_octets` (ram.rs:93-106): walks the pages from
`currentAddr` to `endAddr`, faulting with the page base of the first page
missing from the sparse map, and returning the concatenated bytes otherwise. -/
def readLoop (pages : List (Nat × List Nat)) (currentAddr endAddr : Nat) :
    Except Nat (List Nat) :=
  if h : currentAddr < endAddr then
    let pageIndex := currentAddr / PAGE_SIZE
    let pageOffset := currentAddr % PAGE_SIZE
    match lookupA pages pageIndex with
    | Option.none => .error (pageIndex * PAGE_SIZE)
    | some page =>
        let bytesInPage := min (endAddr - currentAddr) (PAGE_SIZE - pageOffset)
        match readLoop pages (currentAddr + bytesInPage) endAddr with
        | .error f => .error f
        | .ok rest => .ok ((page.drop pageOffset).take bytesInPage ++ rest)
  else .ok []
termination_by endAddr - currentAddr
decreasing_by
  have hoff : currentAddr % PAGE_SIZE < PAGE_SIZE := Nat.mod_lt _ (by decide)
  simp only [PAGE_SIZE] at *
  omega

/-- `read_octets` (ram.rs:83): access check, then the page walk; the result
buffer is pre-filled with `count` zeros, so bytes past the copied region stay
zero; on success the last-load trace records the address and the first eight
bytes little-endian. -/
def read_octets (ram : PvmRam) (address count : Nat) : ReadResult × PvmRam :=
  let check := is_readable_with_fault ram address count
  if check.success = false then (⟨Option.none, check.faultAddress⟩, ram)
  else
    match readLoop ram.pages address ((address + count) % 2 ^ 32) with
    | .error f => (⟨Option.none, f⟩, ram)
    | .ok bytes =>
        let data := bytes ++ List.replicate (count - bytes.length) 0
        (⟨some data, 0⟩,
         { ram with lastLoadAddress := address, lastLoadValue := leVal (data.take 8) })

/-- The page-copy loop of `write_octets` (ram.rs:134-145): creates missing
pages (`get_or_create_page`, a fresh 4096-byte zero buffer) and overwrites
`bytesInPage` bytes at the page offset.  The loop guard adds
`valuesOffset < values.length`, the loop variant; at every call site it
coincides with `currentAddr < endAddr` because `endAddr - currentAddr` equals
the unwritten byte count. -/
def writeLoop (pages : List (Nat × List Nat)) (currentAddr endAddr : Nat)
    (values : List Nat) (valuesOffset : Nat) : List (Nat × List Nat) :=
  if h : currentAddr < endAddr ∧ valuesOffset < values.length then
    let pageIndex := currentAddr / PAGE_SIZE
    let pageOffset := currentAddr % PAGE_SIZE
    let page := (lookupA pages pageIndex).getD (List.replicate PAGE_SIZE 0)
    let bytesInPage := min (values.length - valuesOffset) (PAGE_SIZE - pageOffset)
    let newPage := page.take pageOffset
      ++ (values.drop valuesOffset).take bytesInPage
      ++ page.drop (pageOffset + bytesInPage)
    writeLoop (insertA pages pageIndex newPage) (currentAddr + bytesInPage) endAddr
      values (valuesOffset + bytesInPage)
  else pages
termination_by values.length - valuesOffset
decreasing_by
  have hoff : currentAddr % PAGE_SIZE < PAGE_SIZE := Nat.mod_lt _ (by decide)
  simp only [PAGE_SIZE] at *
  omega

/-- `write_octets` (ram.rs:117): on a failed check the fault address is the
check's fault address — EXCEPT that a zero fault address is replaced by
`0xFFFF_FFFF`; on success the pages are updated and the last-store trace set. -/
def write_octets (ram : PvmRam) (address : Nat) (values : List Nat) :
    WriteResult × PvmRam :=
  let size := values.length
  let check := is_writable_with_fault ram address size
  if check.success = false then
    (⟨true, if check.faultAddress ≠ 0 then check.faultAddress else 4294967295⟩, ram)
  else
    let pages := writeLoop ram.pages address ((address + size) % 2 ^ 32) values 0
    (⟨false, 0⟩,
     { ram with pages := pages, lastStoreAddress := address,
                lastStoreValue := leVal (values.take 8) })

/-- `find?` over a contiguous range returns `p` when `p` is in the range,
satisfies the predicate, and no earlier element of the range does. -/
theorem find?_range'_eq_some (f : Nat → Bool) (p : Nat) :
    ∀ (start len : Nat), start ≤ p → p < start + len → f p = true →
    (∀ q, start ≤ q → q < p → f q = false) →
    (List.range' start len).find? f = some p := by
  intro start len
  induction len generalizing start with
  | zero =>
      intro h1 h2 _ _
      omega
  | succ n ih =>
      intro h1 h2 hp hqs
      rw [List.range'_succ, List.find?_cons]
      by_cases hstart : p = start
      · subst hstart
        simp [hp]
      · have hfs : f start = false := hqs start le_rfl (by omega)
        simp only [hfs]
        exact ih (start + 1) (by omega) (by omega) hp
          fun q hq1 hq2 => hqs q (by omega) hq2

/-- **C10.** Zero-length memory accesses always succeed: for every address
(including addresses on unmapped or access-`None` pages),
`read_octets(addr, 0)` returns the empty byte string with fault address 0,
and `write_octets(addr, [])` reports no fault and changes neither page
contents nor access rights. -/
theorem C10_zero_length_access_succeeds (ram : PvmRam) (address : Nat) :
    (read_octets ram address 0).1 = ⟨some [], 0⟩ ∧
    (read_octets ram address 0).2.pages = ram.pages ∧
    (read_octets ram address 0).2.pageAccess = ram.pageAccess ∧
    (write_octets ram address []).1 = ⟨false, 0⟩ ∧
    (write_octets ram address []).2.pages = ram.pages ∧
    (write_octets ram address []).2.pageAccess = ram.pageAccess := by
  have hmod : address % 4294967296 ≤ address := Nat.mod_le _ _
  have hloop : readLoop ram.pages address (address % 4294967296) = .ok [] := by
    rw [readLoop, dif_neg (by omega)]
  have hwloop : writeLoop ram.pages address (address % 4294967296)
      (List.nil (α := Nat)) 0 = ram.pages := by
    rw [writeLoop, dif_neg (by simp)]
  refine ⟨?_, ?_, ?_, ?_, ?_, ?_⟩ <;>
    simp [read_octets, write_octets, is_readable_with_fault, is_writable_with_fault,
      hloop, hwloop, leVal]

/-- **C7 counterexample.** The claim "the reported fault address equals
`pageIndex * 4096` of the first offending page — including when that first
offending page is page 0" is false for `write_octets`: on an empty RAM, a
one-byte write at address 0 has page 0 as its first (and only) non-writable
page, so the claim requires fault address `0 * 4096 = 0`, but the code
(ram.rs:121-128) replaces the zero fault address with `0xFFFF_FFFF`. -/
theorem C7_page_zero_write_fault_counterexample :
    (write_octets ⟨[], [], 0, 0, 0, 0⟩ 0 [7]).1.hasFault = true ∧
    accessOf ⟨[], [], 0, 0, 0, 0⟩ 0 ≠ MemoryAccessType.write ∧
    (write_octets ⟨[], [], 0, 0, 0, 0⟩ 0 [7]).1.faultAddress = 4294967295 ∧
    (write_octets ⟨[], [], 0, 0, 0, 0⟩ 0 [7]).1.faultAddress ≠ 0 * PAGE_SIZE := by
  refine ⟨by decide, by decide, by decide, by decide⟩

/-- **C7 (amended).** For every `read_octets` or `write_octets` call whose
accessed range contains a page whose access mode disallows the operation
(mode `None` for reads; any mode other than `Write` for writes), the call
faults and the reported fault address equals `pageIndex * 4096` of the first
such page — except that `write_octets` reports `0xFFFF_FFFF` instead when
that first offending page is page 0. -/
theorem C7_fault_address_precision (ram : PvmRam) (address count : Nat)
    (values : List Nat) (p : Nat) :
    (count ≠ 0 →
      address / PAGE_SIZE ≤ p →
      p ≤ ((address + count) % 2 ^ 32 - 1) / PAGE_SIZE →
      accessOf ram p = MemoryAccessType.none →
      (∀ q, address / PAGE_SIZE ≤ q → q < p → accessOf ram q ≠ MemoryAccessType.none) →
      (read_octets ram address count).1 = ⟨Option.none, p * PAGE_SIZE⟩) ∧
    (values ≠ [] →
      address / PAGE_SIZE ≤ p →
      p ≤ ((address + values.length) % 2 ^ 32 - 1) / PAGE_SIZE →
      accessOf ram p ≠ MemoryAccessType.write →
      (∀ q, address / PAGE_SIZE ≤ q → q < p → accessOf ram q = MemoryAccessType.write) →
      (write_octets ram address values).1 =
        ⟨true, if p * PAGE_SIZE ≠ 0 then p * PAGE_SIZE else 4294967295⟩) := by
  constructor
  · intro hcount h1 h2 hbad hbefore
    have hfind : firstBadPage ram (fun a => a = MemoryAccessType.none)
        (address / PAGE_SIZE) (((address + count) % 2 ^ 32 - 1) / PAGE_SIZE) = some p := by
      apply find?_range'_eq_some
      · exact h1
      · omega
      · simp [hbad]
      · intro q hq1 hq2
        simp [hbefore q hq1 hq2]
    have hcheck : is_readable_with_fault ram address count = ⟨false, p * PAGE_SIZE⟩ := by
      rw [is_readable_with_fault, if_neg hcount, hfind]
    rw [read_octets]
    simp [hcheck]
  · intro hvals h1 h2 hbad hbefore
    have hlen : values.length ≠ 0 := by
      intro h
      exact hvals (List.eq_nil_of_length_eq_zero h)
    have hfind : firstBadPage ram (fun a => ¬ a = MemoryAccessType.write)
        (address / PAGE_SIZE) (((address + values.length) % 2 ^ 32 - 1) / PAGE_SIZE)
        = some p := by
      apply find?_range'_eq_some
      · exact h1
      · omega
      · simp [hbad]
      · intro q hq1 hq2
        simp [hbefore q hq1 hq2]
    have hcheck : is_writable_with_fault ram address values.length
        = ⟨false, p * PAGE_SIZE⟩ := by
      rw [is_writable_with_fault, if_neg hlen, hfind]
    rw [write_octets]
    simp [hcheck]

/-- Witness for the amended C7: a RAM whose page 1 alone is readable (resp.
writable); a two-byte access at address 8191 crosses from page 1 into the
inaccessible page 2 and faults at page 2's base `8192`. -/
theorem C7_witness :
    (read_octets ⟨[], [(1, MemoryAccessType.read)], 0, 0, 0, 0⟩ 8191 2).1
      = ⟨Option.none, 8192⟩ ∧
    (write_octets ⟨[], [(1, MemoryAccessType.write)], 0, 0, 0, 0⟩ 8191 [1, 2]).1
      = ⟨true, 8192⟩ := by
  constructor
  · have h := (C7_fault_address_precision ⟨[], [(1, MemoryAccessType.read)], 0, 0, 0, 0⟩
      8191 2 [] 2).1
    exact h (by decide) (by decide) (by decide) (by decide)
      (fun q hq1 hq2 => by
        simp only [PAGE_SIZE] at hq1
        norm_num at hq1
        interval_cases q
        decide)
  · have h := (C7_fault_address_precision ⟨[], [(1, MemoryAccessType.write)], 0, 0, 0, 0⟩
      8191 0 [1, 2] 2).2
    exact h (by decide) (by decide) (by decide) (by decide)
      (fun q hq1 hq2 => by
        simp only [PAGE_SIZE] at hq1
        norm_num at hq1
        interval_cases q
        decide)

/-! ## Instruction operand helpers and 32-bit div/rem instructions
(`instructions/base.rs`, `instructions/arithmetic.rs`)

The register bank `[u64; 13]` is embedded as a `List Nat` of length 13. -/

/-- `get_register` (arithmetic.rs:14): `registers.get(index).copied().unwrap_or(0)`. -/
def get_register (registers : List Nat) (index : Nat) : Nat :=
  (registers.get? index).getD 0

/-- `set_register` (arithmetic.rs:18): write only when `index < 13`. -/
def set_register (registers : List Nat) (index : Nat) (value : Nat) : List Nat :=
  if index < 13 then registers.set index value else registers

/-- `get_register_index` (base.rs:87): `min(12, byte mod 16)`. -/
def get_register_index (operandByte : Nat) : Nat :=
  min (operandByte % 16) 12

/-- `parse_three_registers` (base.rs:205): `operands[0] = (B << 4) | A`,
`operands[1] = D` (low nibble); returns `(D, A, B)`. -/
def parse_three_registers (operands : List Nat) : Nat × Nat × Nat :=
  let registerA := get_register_index (operands.getD 0 0)
  let registerB := min (operands.getD 0 0 / 16 % 16) 12
  let registerD := get_register_index (operands.getD 1 0)
  (registerD, registerA, registerB)

/-- `sign_extend` (base.rs:102): mask to `octets` bytes, then or in the high
extension when the sign bit is set (the or is addition: the extension's low
`8·octets` bits are zero). -/
def sign_extend (value : Nat) (octets : Nat) : Nat :=
  let masked :=
    match octets with
    | 1 => value % 2 ^ 8
    | 2 => value % 2 ^ 16
    | 3 => value % 2 ^ 24
    | 4 => value % 2 ^ 32
    | _ => value
  let signBit := masked / 2 ^ (8 * octets - 1) % 2
  let extension :=
    match octets with
    | 1 => 0xFFFFFFFFFFFFFF00
    | 2 => 0xFFFFFFFFFFFF0000
    | 3 => 0xFFFFFFFFFF000000
    | 4 => 0xFFFFFFFF00000000
    | _ => 0
  if signBit ≠ 0 then masked + extension else masked

/-- The `as i64` reinterpretation of a `u64` bit pattern. -/
def toInt64 (n : Nat) : Int :=
  if n < 2 ^ 63 then (n : Int) else (n : Int) - 2 ^ 64

/-- The `as u64` reinterpretation of an `i64` value (two's complement). -/
def toUInt64 (i : Int) : Nat :=
  (i % 2 ^ 64).toNat

/-- `set_register_32_result` (arithmetic.rs:38): keep the low 32 bits,
sign-extend to 64, write. -/
def set_register_32_result (registers : List Nat) (index value : Nat) : List Nat :=
  set_register registers index (sign_extend (value % 2 ^ 32) 4)

/-- `DivU32Instruction::execute` (arithmetic.rs:118). -/
def DivU32_execute (registers operands : List Nat) : List Nat :=
  let p := parse_three_registers operands
  let valueA := get_register registers p.2.1 % 2 ^ 32
  let valueB := get_register registers p.2.2 % 2 ^ 32
  let result := if valueB = 0 then 0xffffffffffffffff else sign_extend (valueA / valueB) 4
  set_register registers p.1 result

/-- `DivS32Instruction::execute` (arithmetic.rs:150).  Rust `i64` division
truncates toward zero: `Int.tdiv`.  `(q as u64).wrapping_add(x) & 0xffff_ffff`
is `(toUInt64 q + x) % 2^64 % 2^32`. -/
def DivS32_execute (registers operands : List Nat) : List Nat :=
  let p := parse_three_registers operands
  let valueA := get_register registers p.2.1 % 2 ^ 32
  let valueB := get_register registers p.2.2 % 2 ^ 32
  let signedA := toInt64 (sign_extend valueA 4)
  let signedB := toInt64 (sign_extend valueB 4)
  let result :=
    if signedB = 0 then 0xffffffffffffffff
    else if valueA = 0x80000000 ∧ valueB = 0xffffffff then valueA
    else
      let q := signedA.tdiv signedB
      (toUInt64 q + (if q < 0 then 0x100000000 else 0)) % 2 ^ 64 % 2 ^ 32
  set_register_32_result registers p.1 result

/-- `RemU32Instruction::execute` (arithmetic.rs:187). -/
def RemU32_execute (registers operands : List Nat) : List Nat :=
  let p := parse_three_registers operands
  let valueA := get_register registers p.2.1 % 2 ^ 32
  let valueB := get_register registers p.2.2 % 2 ^ 32
  let result := if valueB = 0 then valueA else valueA % valueB
  set_register_32_result registers p.1 result

/-- `RemS32Instruction::execute` (arithmetic.rs:219).  The `smod` of the
source is `sign(a) * (|a| % |b|)`, Rust's truncated remainder. -/
def RemS32_execute (registers operands : List Nat) : List Nat :=
  let p := parse_three_registers operands
  let valueA := get_register registers p.2.1 % 2 ^ 32
  let valueB := get_register registers p.2.2 % 2 ^ 32
  let signedA := toInt64 (sign_extend valueA 4)
  let signedB := toInt64 (sign_extend valueB 4)
  let result :=
    if valueA = 0x80000000 ∧ valueB = 0xffffffff then 0
    else if signedB = 0 then
      (toUInt64 signedA + (if signedA < 0 then 0x100000000 else 0)) % 2 ^ 64 % 2 ^ 32
    else
      let smodVal := (if signedA < 0 then (-1 : Int) else 1) * (signedA.natAbs % signedB.natAbs : Nat)
      (toUInt64 smodVal + (if smodVal < 0 then 0x100000000 else 0)) % 2 ^ 64 % 2 ^ 32
  set_register_32_result registers p.1 result

theorem get_register_set_register (registers : List Nat) (index value : Nat)
    (hlen : registers.length = 13) (hidx : index < 13) :
    get_register (set_register registers index value) index = value := by
  rw [get_register, set_register, if_pos hidx, List.get?_eq_getElem?, List.getElem?_set]
  simp [hlen, hidx]

theorem parse_d_lt_13 (operands : List Nat) : (parse_three_registers operands).1 < 13 := by
  simp only [parse_three_registers, get_register_index]
  omega

/-- `sign_extend` at 4 octets, explicitly: identity below `2^31`, high
extension above. -/
theorem sign_extend4_eq (x : Nat) (hx : x < 2 ^ 32) :
    sign_extend x 4 = if x < 2 ^ 31 then x else x + 0xFFFFFFFF00000000 := by
  simp only [sign_extend]
  norm_num
  split <;> split <;> omega

/-- The signed reading of a 32-bit register value. -/
theorem toInt64_sign_extend4 (x : Nat) (hx : x < 2 ^ 32) :
    toInt64 (sign_extend x 4) = if x < 2 ^ 31 then (x : Int) else (x : Int) - 2 ^ 32 := by
  rw [sign_extend4_eq x hx]
  by_cases hs : x < 2 ^ 31
  · rw [if_pos hs, if_pos hs, toInt64, if_pos (by omega)]
  · rw [if_neg hs, if_neg hs, toInt64, if_neg (by omega)]
    push_cast
    omega

theorem toInt64_sign_extend4_eq_zero_iff (x : Nat) (hx : x < 2 ^ 32) :
    toInt64 (sign_extend x 4) = 0 ↔ x = 0 := by
  rw [toInt64_sign_extend4 x hx]
  split <;> omega

/-- `(q as u64).wrapping_add(if q < 0 { 2^32 } else { 0 }) & 0xffff_ffff`
is `q`'s value modulo `2^32`. -/
theorem wrap32 (q : Int) (h1 : -(2 ^ 63) ≤ q) (h2 : q < 2 ^ 63) :
    (toUInt64 q + (if q < 0 then 0x100000000 else 0)) % 2 ^ 64 % 2 ^ 32
      = (q % (2 ^ 32 : Int)).toNat := by
  unfold toUInt64
  by_cases hq : q < 0 <;> simp only [hq, if_true, if_false] <;> omega

/-- The source\'s `sign_a * (|a| % |b|)` is the truncated remainder
`Int.tmod`. -/
theorem smod_eq_tmod (a b : Int) :
    (if a < 0 then (-1 : Int) else 1) * ((a.natAbs % b.natAbs : Nat) : Int) = a.tmod b := by
  cases a <;> cases b <;> simp [Int.tmod, Int.natAbs, Int.negSucc_lt_zero]

theorem tdiv_natAbs_le (a b : Int) : (a.tdiv b).natAbs ≤ a.natAbs := by
  rw [Int.natAbs_tdiv]
  exact Nat.div_le_self _ _

theorem tmod_natAbs_le (a b : Int) : (a.tmod b).natAbs ≤ a.natAbs := by
  rw [← smod_eq_tmod, Int.natAbs_mul]
  have h1 : (if a < 0 then (-1 : Int) else 1).natAbs = 1 := by split <;> rfl
  rw [h1, one_mul, Int.natAbs_ofNat]
  exact Nat.mod_le _ _

/-- **C6.** 32-bit division/remainder trap semantics.  With `d, a, b` the
parsed destination/source registers and `va, vb` the low 32 bits of the
source registers: `DIV_U_32` and `DIV_S_32` with divisor (mod `2^32`) zero
write `2^64 - 1`; `DIV_S_32` of `-2^31 / -1` writes the dividend
sign-extended (`2^64 - 2^31`); `REM_U_32` with divisor 0 writes the
(sign-extended) dividend, as does `REM_S_32`; `REM_S_32` of `-2^31 % -1`
writes 0; in all other cases the result is the low 32 bits of the exact
truncated quotient/remainder of the signed (resp. unsigned) values,
sign-extended to 64 bits. -/
theorem C6_div_rem_32_trap_semantics (registers operands : List Nat)
    (hlen : registers.length = 13) (d a b va vb : Nat)
    (hd : d = (parse_three_registers operands).1)
    (ha : a = (parse_three_registers operands).2.1)
    (hb : b = (parse_three_registers operands).2.2)
    (hva : va = get_register registers a % 2 ^ 32)
    (hvb : vb = get_register registers b % 2 ^ 32) :
    (vb = 0 →
      get_register (DivU32_execute registers operands) d = 2 ^ 64 - 1 ∧
      get_register (DivS32_execute registers operands) d = 2 ^ 64 - 1 ∧
      get_register (RemU32_execute registers operands) d = sign_extend va 4 ∧
      get_register (RemS32_execute registers operands) d = sign_extend va 4) ∧
    (va = 2 ^ 31 → vb = 2 ^ 32 - 1 →
      get_register (DivS32_execute registers operands) d = 2 ^ 64 - 2 ^ 31 ∧
      get_register (RemS32_execute registers operands) d = 0) ∧
    (vb ≠ 0 → ¬(va = 2 ^ 31 ∧ vb = 2 ^ 32 - 1) →
      get_register (DivU32_execute registers operands) d = sign_extend (va / vb) 4 ∧
      get_register (RemU32_execute registers operands) d = sign_extend (va % vb) 4 ∧
      get_register (DivS32_execute registers operands) d
        = sign_extend ((Int.tdiv (toInt64 (sign_extend va 4)) (toInt64 (sign_extend vb 4))
            % (2 ^ 32 : Int)).toNat) 4 ∧
      get_register (RemS32_execute registers operands) d
        = sign_extend ((Int.tmod (toInt64 (sign_extend va 4)) (toInt64 (sign_extend vb 4))
            % (2 ^ 32 : Int)).toNat) 4) := by
  subst hd ha hb hva hvb
  have hget : ∀ v, get_register
      (set_register registers (parse_three_registers operands).1 v)
      (parse_three_registers operands).1 = v :=
    fun v => get_register_set_register registers _ v hlen (parse_d_lt_13 operands)
  have hvalt : get_register registers (parse_three_registers operands).2.1 % 2 ^ 32 < 2 ^ 32 :=
    Nat.mod_lt _ (by norm_num)
  have hvblt : get_register registers (parse_three_registers operands).2.2 % 2 ^ 32 < 2 ^ 32 :=
    Nat.mod_lt _ (by norm_num)
  set va := get_register registers (parse_three_registers operands).2.1 % 2 ^ 32 with hva
  set vb := get_register registers (parse_three_registers operands).2.2 % 2 ^ 32 with hvb
  have hsa := toInt64_sign_extend4 va hvalt
  have hsb := toInt64_sign_extend4 vb hvblt
  refine ⟨?_, ?_, ?_⟩
  · intro h0
    have hsb0 : toInt64 (sign_extend vb 4) = 0 :=
      (toInt64_sign_extend4_eq_zero_iff vb hvblt).mpr h0
    refine ⟨?_, ?_, ?_, ?_⟩
    · rw [DivU32_execute]
      rw [← hva, ← hvb, if_pos h0, hget]
      norm_num
    · rw [DivS32_execute]
      rw [← hva, ← hvb, if_pos hsb0]
      rw [set_register_32_result, hget]
      rw [show ((0xffffffffffffffff : Nat) % 2 ^ 32) = 2 ^ 32 - 1 by norm_num]
      rw [sign_extend4_eq _ (by norm_num)]
      norm_num
    · rw [RemU32_execute]
      rw [← hva, ← hvb, if_pos h0]
      rw [set_register_32_result, hget, Nat.mod_eq_of_lt hvalt]
    · rw [RemS32_execute]
      rw [← hva, ← hvb, if_neg (by omega), if_pos hsb0]
      rw [set_register_32_result, hget]
      -- the dividend path: wrap the signed dividend back to its low 32 bits
      have hq1 : -(2 ^ 63) ≤ toInt64 (sign_extend va 4) := by rw [hsa]; split <;> omega
      have hq2 : toInt64 (sign_extend va 4) < 2 ^ 63 := by rw [hsa]; split <;> omega
      have hw := wrap32 (toInt64 (sign_extend va 4)) hq1 hq2
      rw [hw]
      have hmod : (toInt64 (sign_extend va 4) % (2 ^ 32 : Int)).toNat = va := by
        rw [hsa]; split <;> omega
      rw [hmod, Nat.mod_eq_of_lt hvalt]
  · intro hA hB
    have hsbne : ¬ toInt64 (sign_extend vb 4) = 0 := by
      rw [toInt64_sign_extend4_eq_zero_iff vb hvblt]
      omega
    constructor
    · rw [DivS32_execute]
      rw [← hva, ← hvb, if_neg hsbne, if_pos ⟨by rw [hA]; norm_num, by rw [hB]; norm_num⟩]
      rw [set_register_32_result, hget, hA]
      rw [show ((2 ^ 31 : Nat) % 2 ^ 32) = 2 ^ 31 by norm_num]
      rw [sign_extend4_eq _ (by norm_num)]
      norm_num
    · rw [RemS32_execute]
      rw [← hva, ← hvb, if_pos ⟨by rw [hA]; norm_num, by rw [hB]; norm_num⟩]
      rw [set_register_32_result, hget]
      norm_num [sign_extend]
  · intro hne hnsp
    have hsbne : ¬ toInt64 (sign_extend vb 4) = 0 := by
      rw [toInt64_sign_extend4_eq_zero_iff vb hvblt]
      exact hne
    have hnspc : ¬ (va = 0x80000000 ∧ vb = 0xffffffff) := by
      intro hc
      exact hnsp ⟨by rw [hc.1]; norm_num, by rw [hc.2]; norm_num⟩
    refine ⟨?_, ?_, ?_, ?_⟩
    · rw [DivU32_execute]
      rw [← hva, ← hvb, if_neg hne, hget]
    · rw [RemU32_execute]
      rw [← hva, ← hvb, if_neg hne]
      rw [set_register_32_result, hget,
        Nat.mod_eq_of_lt (lt_of_le_of_lt (Nat.mod_le _ _) hvalt)]
    · rw [DivS32_execute]
      rw [← hva, ← hvb, if_neg hsbne, if_neg hnspc]
      rw [set_register_32_result, hget]
      have hq1 : -(2 ^ 63) ≤ (toInt64 (sign_extend va 4)).tdiv (toInt64 (sign_extend vb 4)) := by
        have h := tdiv_natAbs_le (toInt64 (sign_extend va 4)) (toInt64 (sign_extend vb 4))
        have hva63 : (toInt64 (sign_extend va 4)).natAbs ≤ 2 ^ 32 := by
          rw [hsa]; split <;> omega
        omega
      have hq2 : (toInt64 (sign_extend va 4)).tdiv (toInt64 (sign_extend vb 4)) < 2 ^ 63 := by
        have h := tdiv_natAbs_le (toInt64 (sign_extend va 4)) (toInt64 (sign_extend vb 4))
        have hva63 : (toInt64 (sign_extend va 4)).natAbs ≤ 2 ^ 32 := by
          rw [hsa]; split <;> omega
        omega
      rw [wrap32 _ hq1 hq2]
      congr 1
      have : ((Int.tdiv (toInt64 (sign_extend va 4)) (toInt64 (sign_extend vb 4))
          % (2 ^ 32 : Int)).toNat) < 2 ^ 32 := by omega
      rw [Nat.mod_eq_of_lt this]
    · rw [RemS32_execute]
      rw [← hva, ← hvb, if_neg hnspc, if_neg hsbne]
      rw [set_register_32_result, hget]
      rw [smod_eq_tmod]
      have habs : (Int.tmod (toInt64 (sign_extend va 4)) (toInt64 (sign_extend vb 4))).natAbs
          ≤ (toInt64 (sign_extend va 4)).natAbs := tmod_natAbs_le _ _
      have hva63 : (toInt64 (sign_extend va 4)).natAbs ≤ 2 ^ 32 := by
        rw [hsa]; split <;> omega
      have hq1 : -(2 ^ 63) ≤ Int.tmod (toInt64 (sign_extend va 4)) (toInt64 (sign_extend vb 4)) := by
        omega
      have hq2 : Int.tmod (toInt64 (sign_extend va 4)) (toInt64 (sign_extend vb 4)) < 2 ^ 63 := by
        omega
      rw [wrap32 _ hq1 hq2]
      have : ((Int.tmod (toInt64 (sign_extend va 4)) (toInt64 (sign_extend vb 4))
          % (2 ^ 32 : Int)).toNat) < 2 ^ 32 := by omega
      rw [Nat.mod_eq_of_lt this]

/-- Witness for C6 at concrete register files: `r1 = 0` divisor for the
zero cases, `(r1, r2) = (0x80000000, 0xFFFFFFFF)` for the INT_MIN cases, and
`(r1, r2) = (7, 2^32 - 3)` (i.e. `7 / -3`, `7 % -3`) for the general case. -/
theorem C6_witness :
    (get_register (DivU32_execute [0, 6, 0, 0, 0, 0, 0, 0, 0, 0, 0, 0, 0] [33, 3]) 3
        = 2 ^ 64 - 1) ∧
    (get_register (DivS32_execute [0, 2147483648, 4294967295, 0, 0, 0, 0, 0, 0, 0, 0, 0, 0]
        [33, 3]) 3 = 2 ^ 64 - 2 ^ 31) ∧
    (get_register (DivS32_execute [0, 7, 4294967293, 0, 0, 0, 0, 0, 0, 0, 0, 0, 0]
        [33, 3]) 3
      = sign_extend ((Int.tdiv (toInt64 (sign_extend 7 4)) (toInt64 (sign_extend 4294967293 4))
          % (2 ^ 32 : Int)).toNat) 4) ∧
    (get_register (RemS32_execute [0, 7, 4294967293, 0, 0, 0, 0, 0, 0, 0, 0, 0, 0]
        [33, 3]) 3
      = sign_extend ((Int.tmod (toInt64 (sign_extend 7 4)) (toInt64 (sign_extend 4294967293 4))
          % (2 ^ 32 : Int)).toNat) 4) := by
  refine ⟨?_, ?_, ?_, ?_⟩
  · exact ((C6_div_rem_32_trap_semantics [0, 6, 0, 0, 0, 0, 0, 0, 0, 0, 0, 0, 0] [33, 3]
      (by decide) 3 1 2 6 0 (by decide) (by decide) (by decide) (by decide) (by decide)).1
      rfl).1
  · exact ((C6_div_rem_32_trap_semantics [0, 2147483648, 4294967295, 0, 0, 0, 0, 0, 0, 0, 0, 0, 0]
      [33, 3] (by decide) 3 1 2 2147483648 4294967295
      (by decide) (by decide) (by decide) (by decide) (by decide)).2.1
      (by norm_num) (by norm_num)).1
  · exact ((C6_div_rem_32_trap_semantics [0, 7, 4294967293, 0, 0, 0, 0, 0, 0, 0, 0, 0, 0]
      [33, 3] (by decide) 3 1 2 7 4294967293
      (by decide) (by decide) (by decide) (by decide) (by decide)).2.2
      (by norm_num) (by norm_num)).2.2.1
  · exact ((C6_div_rem_32_trap_semantics [0, 7, 4294967293, 0, 0, 0, 0, 0, 0, 0, 0, 0, 0]
      [33, 3] (by decide) 3 1 2 7 4294967293
      (by decide) (by decide) (by decide) (by decide) (by decide)).2.2
      (by norm_num) (by norm_num)).2.2.2

/-! ## Control flow: indirect jumps (`instructions/control_flow.rs`,
`instructions/base.rs`, `config.rs`) -/

/-- Result codes (config.rs:39-43); `InstructionResult::CONTINUE = -1`. -/
def RESULT_CODE_HALT : Int := 0
def RESULT_CODE_PANIC : Int := 1
def CONTINUE : Int := -1

/-- `is_termination_instruction` (config.rs:365): TRAP(0), FALLTHROUGH(1),
JUMP(40), JUMP_IND(50), LOAD_IMM_JUMP(80), LOAD_IMM_JUMP_IND(180),
BRANCH_EQ(170)..BRANCH_GE_S(175), BRANCH_EQ_IMM(81)..BRANCH_GT_S_IMM(90). -/
def is_termination_instruction (opcode : Nat) : Bool :=
  opcode = 0 ∨ opcode = 1 ∨ opcode = 40 ∨ opcode = 50 ∨ opcode = 80 ∨ opcode = 180 ∨
    (170 ≤ opcode ∧ opcode ≤ 175) ∨ (81 ≤ opcode ∧ opcode ≤ 90)

/-- The `for j in 1..=24` loop of `calculate_skip_distance` (base.rs:295). -/
def skipLoop (instructionIndex : Nat) (bitmask : List Nat) (j : Nat) : Nat :=
  if h : j ≤ 24 then
    if bitmask.length ≤ instructionIndex + j ∨ bitmask.getD (instructionIndex + j) 0 = 1
      then j - 1
      else skipLoop instructionIndex bitmask (j + 1)
  else 24
termination_by 25 - j

/-- `calculate_skip_distance` (base.rs:295): `Fskip(i)`, at most 24. -/
def calculate_skip_distance (instructionIndex : Nat) (bitmask : List Nat) : Nat :=
  skipLoop instructionIndex bitmask 1

/-- `validate_branch_target` (base.rs:307), as a Bool (`true` = valid =
the source\'s `None`; `false` = the panic result).  The final `for i in
0..target_index` walk is the existence of a terminator instruction ending
exactly at the target. -/
def validate_branch_target (targetAddress : Nat) (code bitmask : List Nat) : Bool :=
  if code.length ≤ targetAddress then false
  else if bitmask.length ≤ targetAddress ∨ bitmask.getD targetAddress 0 = 0 then false
  else if targetAddress = 0 then true
  else
    (List.range targetAddress).any fun i =>
      bitmask.getD i 0 = 1 ∧ is_termination_instruction (code.getD i 0) ∧
        i + 1 + calculate_skip_distance i bitmask = targetAddress

/-- `get_immediate_value` (base.rs:144): little-endian read of
`operands[start..min(start+length, len)]`, sign-extended over `length`
octets, reinterpreted as `i64`. -/
def get_immediate_value (operands : List Nat) (start : Nat) (length : Nat) : Int :=
  if length = 0 then 0
  else
    let e := min (start + length) operands.length
    if e ≤ start then 0
    else toInt64 (sign_extend (leVal ((operands.drop start).take (e - start))) length)

/-- `get_register_b` (base.rs:93). -/
def get_register_b (operands : List Nat) : Nat :=
  if operands = [] then 0 else min (operands.getD 0 0 / 16 % 16) 12

/-- `parse_one_register_and_immediate` (base.rs:218):
`l_X = clamp(fskip - 1, 0, 4)`, immediate at byte 1.  (The source indexes
`operands[0]` unconditionally; the claims are stated for non-empty operand
slices.) -/
def parse_one_register_and_immediate (operands : List Nat) (fskip : Nat) : Nat × Int :=
  let registerA := get_register_index (operands.getD 0 0)
  let lengthX := min (fskip - 1) 4
  (registerA, get_immediate_value operands 1 lengthX)

/-- `parse_two_registers_and_two_immediates` (base.rs:274):
`r_A`, `r_B` from byte 0, `l_X = min(4, operands[1] mod 8)`, `immed_X` at
byte 2, `l_Y = clamp(fskip - l_X - 2, 0, 4)`, `immed_Y` at byte `2 + l_X`. -/
def parse_two_registers_and_two_immediates (operands : List Nat) (fskip : Nat) :
    Nat × Nat × Int × Int :=
  let registerA := get_register_index (operands.getD 0 0)
  let registerB := get_register_b operands
  let lengthX := min (operands.getD 1 0 % 8) 4
  let immediateX := get_immediate_value operands 2 lengthX
  let lengthY := min (fskip - lengthX - 2) 4
  let immediateY := get_immediate_value operands (2 + lengthX) lengthY
  (registerA, registerB, immediateX, immediateY)

/-- Outcome of an instruction handler: the `InstructionResult` code plus the
register bank and program counter it leaves behind. -/
structure ExecOutcome where
  resultCode : Int
  registers : List Nat
  programCounter : Nat
deriving DecidableEq, Repr

/-- `JumpIndInstruction::execute` (control_flow.rs:135): djump of
`a = (reg_A + immed_X) mod 2^32`. -/
def JumpInd_execute (registers : List Nat) (programCounter : Nat)
    (operands : List Nat) (fskip : Nat) (jumpTable : List Nat)
    (code bitmask : List Nat) : ExecOutcome :=
  let parsed := parse_one_register_and_immediate operands fskip
  let registerValue := registers.getD parsed.1 0
  let a := (registerValue + toUInt64 parsed.2) % 2 ^ 64 % 2 ^ 32
  if a = HALT_ADDRESS then ⟨RESULT_CODE_HALT, registers, programCounter⟩
  else
    let maxAddress := jumpTable.length * 2
    if a = 0 ∨ maxAddress < a ∨ a % 2 ≠ 0 then ⟨RESULT_CODE_PANIC, registers, programCounter⟩
    else
      let half := a / 2
      if half < 1 then ⟨RESULT_CODE_PANIC, registers, programCounter⟩
      else
        let index := half - 1
        if jumpTable.length ≤ index then ⟨RESULT_CODE_PANIC, registers, programCounter⟩
        else
          let target := jumpTable.getD index 0
          if validate_branch_target target code bitmask = false then
            ⟨RESULT_CODE_PANIC, registers, programCounter⟩
          else ⟨CONTINUE, registers, target⟩

/-- `LoadImmJumpIndInstruction::execute` (control_flow.rs:232): reads
`reg_B`, then writes `reg_A := immed_X`, then djumps
`a = (reg_B + immed_Y) mod 2^32`. -/
def LoadImmJumpInd_execute (registers : List Nat) (programCounter : Nat)
    (operands : List Nat) (fskip : Nat) (jumpTable : List Nat)
    (code bitmask : List Nat) : ExecOutcome :=
  let parsed := parse_two_registers_and_two_immediates operands fskip
  let registerBValue := registers.getD parsed.2.1 0
  let registers1 := registers.set parsed.1 (toUInt64 parsed.2.2.1)
  let a := (registerBValue + toUInt64 parsed.2.2.2) % 2 ^ 64 % 2 ^ 32
  if a = HALT_ADDRESS then ⟨RESULT_CODE_HALT, registers1, programCounter⟩
  else
    let maxAddress := jumpTable.length * 2
    if a = 0 ∨ maxAddress < a ∨ a % 2 ≠ 0 then ⟨RESULT_CODE_PANIC, registers1, programCounter⟩
    else
      let half := a / 2
      if half < 1 then ⟨RESULT_CODE_PANIC, registers1, programCounter⟩
      else
        let index := half - 1
        if jumpTable.length ≤ index then ⟨RESULT_CODE_PANIC, registers1, programCounter⟩
        else
          let target := jumpTable.getD index 0
          if validate_branch_target target code bitmask = false then
            ⟨RESULT_CODE_PANIC, registers1, programCounter⟩
          else ⟨CONTINUE, registers1, target⟩

/-- **C5.** Indirect jump validation.  `JUMP_IND` and `LOAD_IMM_JUMP_IND`
compute `a = (register + immediate) mod 2^32` (the register is `reg_A` with
immediate `immed_X` for `JUMP_IND`, `reg_B` — read before `reg_A` is
overwritten with `immed_X` — with `immed_Y` for `LOAD_IMM_JUMP_IND`).  If
`a = 2^32 - 2^16` the instruction halts; otherwise it panics unless `a` is
non-zero, a multiple of 2, `a/2 - 1` is an in-range jump-table index, and the
jump-table entry validates as a basic-block start, in which case the program
counter is set to that entry. -/
theorem C5_indirect_jump_validation
    (registers operands jumpTable code bitmask : List Nat)
    (fskip programCounter : Nat) (aJ aL : Nat)
    (haJ : aJ = (registers.getD (parse_one_register_and_immediate operands fskip).1 0
        + toUInt64 (parse_one_register_and_immediate operands fskip).2) % 2 ^ 64 % 2 ^ 32)
    (haL : aL = (registers.getD (parse_two_registers_and_two_immediates operands fskip).2.1 0
        + toUInt64 (parse_two_registers_and_two_immediates operands fskip).2.2.2)
        % 2 ^ 64 % 2 ^ 32) :
    ((aJ = 2 ^ 32 - 2 ^ 16 →
        JumpInd_execute registers programCounter operands fskip jumpTable code bitmask
          = ⟨RESULT_CODE_HALT, registers, programCounter⟩) ∧
     (aJ ≠ 2 ^ 32 - 2 ^ 16 →
        (aJ ≠ 0 ∧ aJ % 2 = 0 ∧ aJ / 2 - 1 < jumpTable.length ∧
            validate_branch_target (jumpTable.getD (aJ / 2 - 1) 0) code bitmask = true →
          JumpInd_execute registers programCounter operands fskip jumpTable code bitmask
            = ⟨CONTINUE, registers, jumpTable.getD (aJ / 2 - 1) 0⟩) ∧
        (¬(aJ ≠ 0 ∧ aJ % 2 = 0 ∧ aJ / 2 - 1 < jumpTable.length ∧
            validate_branch_target (jumpTable.getD (aJ / 2 - 1) 0) code bitmask = true) →
          (JumpInd_execute registers programCounter operands fskip jumpTable code
            bitmask).resultCode = RESULT_CODE_PANIC))) ∧
    ((aL = 2 ^ 32 - 2 ^ 16 →
        LoadImmJumpInd_execute registers programCounter operands fskip jumpTable code bitmask
          = ⟨RESULT_CODE_HALT,
             registers.set (parse_two_registers_and_two_immediates operands fskip).1
               (toUInt64 (parse_two_registers_and_two_immediates operands fskip).2.2.1),
             programCounter⟩) ∧
     (aL ≠ 2 ^ 32 - 2 ^ 16 →
        (aL ≠ 0 ∧ aL % 2 = 0 ∧ aL / 2 - 1 < jumpTable.length ∧
            validate_branch_target (jumpTable.getD (aL / 2 - 1) 0) code bitmask = true →
          LoadImmJumpInd_execute registers programCounter operands fskip jumpTable code bitmask
            = ⟨CONTINUE,
               registers.set (parse_two_registers_and_two_immediates operands fskip).1
                 (toUInt64 (parse_two_registers_and_two_immediates operands fskip).2.2.1),
               jumpTable.getD (aL / 2 - 1) 0⟩) ∧
        (¬(aL ≠ 0 ∧ aL % 2 = 0 ∧ aL / 2 - 1 < jumpTable.length ∧
            validate_branch_target (jumpTable.getD (aL / 2 - 1) 0) code bitmask = true) →
          (LoadImmJumpInd_execute registers programCounter operands fskip jumpTable code
            bitmask).resultCode = RESULT_CODE_PANIC))) := by
  have hHA : HALT_ADDRESS = 2 ^ 32 - 2 ^ 16 := by norm_num [HALT_ADDRESS]
  constructor
  · constructor
    · intro hhalt
      rw [JumpInd_execute, ← haJ, if_pos (by omega)]
    · intro hne
      constructor
      · intro ⟨h0, h2, hidx, hval⟩
        rw [JumpInd_execute, ← haJ, if_neg (by omega), if_neg (by omega),
          if_neg (by omega), if_neg (by omega)]
        rw [if_neg (by rw [hval]; simp)]
      · intro hfail
        rw [JumpInd_execute, ← haJ, if_neg (by omega)]
        by_cases hg : aJ = 0 ∨ jumpTable.length * 2 < aJ ∨ aJ % 2 ≠ 0
        · rw [if_pos hg]
        · rw [if_neg hg, if_neg (by omega), if_neg (by omega)]
          have hval : validate_branch_target (jumpTable.getD (aJ / 2 - 1) 0) code bitmask
              = false := by
            rcases Bool.eq_false_or_eq_true
              (validate_branch_target (jumpTable.getD (aJ / 2 - 1) 0) code bitmask) with h | h
            · exact absurd ⟨by omega, by omega, by omega, h⟩ hfail
            · exact h
          rw [if_pos hval]
  · constructor
    · intro hhalt
      rw [LoadImmJumpInd_execute, ← haL, if_pos (by omega)]
    · intro hne
      constructor
      · intro ⟨h0, h2, hidx, hval⟩
        rw [LoadImmJumpInd_execute, ← haL, if_neg (by omega), if_neg (by omega),
          if_neg (by omega), if_neg (by omega)]
        rw [if_neg (by rw [hval]; simp)]
      · intro hfail
        rw [LoadImmJumpInd_execute, ← haL, if_neg (by omega)]
        by_cases hg : aL = 0 ∨ jumpTable.length * 2 < aL ∨ aL % 2 ≠ 0
        · rw [if_pos hg]
        · rw [if_neg hg, if_neg (by omega), if_neg (by omega)]
          have hval : validate_branch_target (jumpTable.getD (aL / 2 - 1) 0) code bitmask
              = false := by
            rcases Bool.eq_false_or_eq_true
              (validate_branch_target (jumpTable.getD (aL / 2 - 1) 0) code bitmask) with h | h
            · exact absurd ⟨by omega, by omega, by omega, h⟩ hfail
            · exact h
          rw [if_pos hval]

/-- Witness for C5: a one-entry jump table pointing at offset 0 of a
one-byte TRAP program; `a = 2` selects index 0 and offset 0 validates as a
basic-block start, so the jump continues with `pc = 0`; and `r0 = 2^32 - 2^16`
halts. -/
theorem C5_witness :
    JumpInd_execute [2, 0, 0, 0, 0, 0, 0, 0, 0, 0, 0, 0, 0] 7 [0] 0 [0] [0] [1]
      = ⟨CONTINUE, [2, 0, 0, 0, 0, 0, 0, 0, 0, 0, 0, 0, 0], 0⟩ ∧
    JumpInd_execute [4294901760, 0, 0, 0, 0, 0, 0, 0, 0, 0, 0, 0, 0] 7 [0] 0 [0] [0] [1]
      = ⟨RESULT_CODE_HALT, [4294901760, 0, 0, 0, 0, 0, 0, 0, 0, 0, 0, 0, 0], 7⟩ := by
  constructor
  · exact (((C5_indirect_jump_validation [2, 0, 0, 0, 0, 0, 0, 0, 0, 0, 0, 0, 0] [0] [0] [0] [1]
      0 7 2 2 (by decide) (by decide)).1).2 (by decide)).1 (by decide)
  · exact ((C5_indirect_jump_validation [4294901760, 0, 0, 0, 0, 0, 0, 0, 0, 0, 0, 0, 0]
      [0] [0] [0] [1] 0 7 4294901760 4294901760 (by decide) (by decide)).1).1 (by decide)

/-! ## Service accounts and the WRITE / SOLICIT host functions
(`codec/impl_.rs:741`, `host_functions/general/write.rs`,
`host_functions/accumulate/solicit.rs`)

The 31-byte `C(s, h)` key derivation hashes with BLAKE2b-256 (crypto.rs).
The claims проverd here are independent of the key values, so the embedding
is parameterised over the key-derivation functions (`storageKey`,
`requestKey`); every theorem is proved for all of them, hence in particular
for the BLAKE2b-based ones. -/

/-- Sentinel codes (config.rs:344-357). -/
def REG_WHO : Nat := 2 ^ 64 - 4
def REG_CASH : Nat := 2 ^ 64 - 7
def REG_LOW : Nat := 2 ^ 64 - 8
def REG_HUH : Nat := 2 ^ 64 - 9
def REG_OK : Nat := 0

/-- `HostFunctionResult` codes: `HOST_RESULT_CONTINUE = 255`
(host_functions/base.rs:10); `panic()` carries `RESULT_CODE_PANIC = 1`. -/
def HOST_CONTINUE : Nat := 255
def HOST_PANIC : Nat := 1

/-- `CompleteServiceAccount` (codec/impl_.rs:741). -/
structure CompleteServiceAccount where
  codehash : List Nat
  balance : Nat
  minaccgas : Nat
  minmemogas : Nat
  octets : Nat
  gratis : Nat
  items : Nat
  created : Nat
  lastacc : Nat
  parent : Nat
  rawCshKeyvals : List (List Nat × List Nat)
deriving DecidableEq, Repr

/-- `raw_get` (codec/impl_.rs:1103): first matching key. -/
def raw_get : List (List Nat × List Nat) → List Nat → Option (List Nat)
  | [], _ => Option.none
  | (k, v) :: rest, key => if k = key then some v else raw_get rest key

/-- `raw_set` (codec/impl_.rs:1110): replace the first match, else push. -/
def raw_set : List (List Nat × List Nat) → List Nat → List Nat → List (List Nat × List Nat)
  | [], key, value => [(key, value)]
  | (k, v) :: rest, key, value =>
      if k = key then (key, value) :: rest else (k, v) :: raw_set rest key value

/-- `raw_delete` (codec/impl_.rs:1120): remove the first match. -/
def raw_delete : List (List Nat × List Nat) → List Nat → List (List Nat × List Nat)
  | [], _ => []
  | (k, v) :: rest, key => if k = key then rest else (k, v) :: raw_delete rest key

/-- `get_storage_value` (codec/impl_.rs:1131), keyed by the abstracted
`create_storage_key`. -/
def get_storage_value (storageKey : Nat → List Nat → List Nat)
    (account : CompleteServiceAccount) (serviceId : Nat) (key : List Nat) :
    Option (List Nat) :=
  raw_get account.rawCshKeyvals (storageKey serviceId key)

/-- `set_storage_value` (codec/impl_.rs:1137). -/
def set_storage_value (storageKey : Nat → List Nat → List Nat)
    (account : CompleteServiceAccount) (serviceId : Nat) (key value : List Nat) :
    CompleteServiceAccount :=
  { account with rawCshKeyvals := raw_set account.rawCshKeyvals (storageKey serviceId key) value }

/-- `delete_storage_value` (codec/impl_.rs:1143). -/
def delete_storage_value (storageKey : Nat → List Nat → List Nat)
    (account : CompleteServiceAccount) (serviceId : Nat) (key : List Nat) :
    CompleteServiceAccount :=
  { account with rawCshKeyvals := raw_delete account.rawCshKeyvals (storageKey serviceId key) }

/-- `get_request_value` (codec/impl_.rs:1159), keyed by the abstracted
`create_request_key` (service id, 32-byte hash, preimage length). -/
def get_request_value (requestKey : Nat → List Nat → Nat → List Nat)
    (account : CompleteServiceAccount) (serviceId : Nat) (hash : List Nat)
    (length : Nat) : Option (List Nat) :=
  raw_get account.rawCshKeyvals (requestKey serviceId hash length)

/-- `set_request_value` (codec/impl_.rs:1170). -/
def set_request_value (requestKey : Nat → List Nat → Nat → List Nat)
    (account : CompleteServiceAccount) (serviceId : Nat) (hash : List Nat)
    (length : Nat) (value : List Nat) : CompleteServiceAccount :=
  { account with
      rawCshKeyvals := raw_set account.rawCshKeyvals (requestKey serviceId hash length) value }

/-- `WriteHostFunction::calculate_min_balance` (write.rs:13):
`C_BASE_DEPOSIT + C_ITEM_DEPOSIT*items + C_BYTE_DEPOSIT*octets` in `u64`
(the single trailing `% 2^64` is the composition of the per-operation wraps),
then `saturating_sub(gratis)` — `Nat` subtraction. -/
def calculate_min_balance (items octets gratis : Nat) : Nat :=
  (C_BASE_DEPOSIT + C_ITEM_DEPOSIT * items + C_BYTE_DEPOSIT * octets) % 2 ^ 64 - gratis

/-- The claim\'s formula: `minbalance = max(0, BASE + ITEM·items + BYTE·octets
− gratis)`. -/
def minbalanceSpec (account : CompleteServiceAccount) : Nat :=
  (max 0 ((C_BASE_DEPOSIT : Int) + C_ITEM_DEPOSIT * account.items
    + C_BYTE_DEPOSIT * account.octets - account.gratis)).toNat

/-- Outcome of `WriteHostFunction::execute`: the continuation code and the
context pieces WRITE may mutate (registers, RAM trace, accounts map). -/
structure WriteOutcome where
  resultCode : Nat
  registers : List Nat
  ram : PvmRam
  accounts : Option (List (Nat × CompleteServiceAccount))
deriving Repr

/-- `WriteHostFunction::execute` (write.rs:26).  `u64` wrapping subtraction
`items - 1` is `(2^64 + items - d) % 2^64`; `new_items as u32` is `% 2^32`;
`(octets as i64 + delta).max(0) as u64` is `(max (toInt64 octets + delta) 0).toNat`. -/
def WriteHostFunction_execute (storageKey : Nat → List Nat → List Nat)
    (registers : List Nat) (ram : PvmRam) (serviceId? : Option Nat)
    (accounts? : Option (List (Nat × CompleteServiceAccount))) : WriteOutcome :=
  match serviceId? with
  | Option.none => ⟨HOST_PANIC, registers, ram, accounts?⟩
  | some serviceId =>
  match accounts? with
  | Option.none => ⟨HOST_PANIC, registers, ram, accounts?⟩
  | some accounts =>
  match lookupA accounts serviceId with
  | Option.none => ⟨HOST_PANIC, registers, ram, accounts?⟩
  | some serviceAccount =>
    let keyOffset := registers.getD 7 0
    let keyLength := registers.getD 8 0
    let valueOffset := registers.getD 9 0
    let valueLength := registers.getD 10 0
    let readKey := read_octets ram (keyOffset % 2 ^ 32) (keyLength % 2 ^ 32)
    match readKey.1.data with
    | Option.none => ⟨HOST_PANIC, registers, readKey.2, some accounts⟩
    | some key =>
    if readKey.1.faultAddress ≠ 0 then ⟨HOST_PANIC, registers, readKey.2, some accounts⟩
    else if valueLength = 0 then
      -- delete branch
      let hasKey := (get_storage_value storageKey serviceAccount serviceId key).isSome
      let newItems := (2 ^ 64 + serviceAccount.items - (if hasKey then 1 else 0)) % 2 ^ 64
      let prev := get_storage_value storageKey serviceAccount serviceId key
      let deletedOctets :=
        match prev with
        | some p => (34 + key.length + p.length) % 2 ^ 64
        | Option.none => 0
      let newOctets := serviceAccount.octets - deletedOctets
      let newMin := calculate_min_balance newItems newOctets serviceAccount.gratis
      if serviceAccount.balance < newMin then
        ⟨HOST_CONTINUE, registers.set 7 REG_FULL, readKey.2, some accounts⟩
      else
        let account1 :=
          match prev with
          | some _ => delete_storage_value storageKey serviceAccount serviceId key
          | Option.none => serviceAccount
        let account2 := { account1 with items := newItems % 2 ^ 32, octets := newOctets }
        let r7 :=
          match prev with
          | some p => p.length
          | Option.none => REG_NONE
        ⟨HOST_CONTINUE, registers.set 7 r7, readKey.2,
          some (insertA accounts serviceId account2)⟩
    else
      -- write branch
      let readValue := read_octets readKey.2 (valueOffset % 2 ^ 32) (valueLength % 2 ^ 32)
      match readValue.1.data with
      | Option.none => ⟨HOST_PANIC, registers, readValue.2, some accounts⟩
      | some value =>
      if readValue.1.faultAddress ≠ 0 then ⟨HOST_PANIC, registers, readValue.2, some accounts⟩
      else
        let hasKey := (get_storage_value storageKey serviceAccount serviceId key).isSome
        let newItems := (serviceAccount.items + (if hasKey then 0 else 1)) % 2 ^ 64
        let prev := get_storage_value storageKey serviceAccount serviceId key
        let octetsDelta : Int :=
          match prev with
          | some p => (value.length : Int) - p.length
          | Option.none => 34 + key.length + value.length
        let newOctets := (max (toInt64 serviceAccount.octets + octetsDelta) 0).toNat
        let newMin := calculate_min_balance newItems newOctets serviceAccount.gratis
        if serviceAccount.balance < newMin then
          ⟨HOST_CONTINUE, registers.set 7 REG_FULL, readValue.2, some accounts⟩
        else
          let account1 := set_storage_value storageKey serviceAccount serviceId key value
          let account2 := { account1 with items := newItems % 2 ^ 32, octets := newOctets }
          let r7 :=
            match prev with
            | some p => p.length
            | Option.none => REG_NONE
          ⟨HOST_CONTINUE, registers.set 7 r7, readValue.2,
            some (insertA accounts serviceId account2)⟩

/-- `SolicitHostFunction::would_overflow_u64` (solicit.rs:20):
`a > u64::MAX - b`. -/
def would_overflow_u64 (a b : Nat) : Prop :=
  2 ^ 64 - 1 - b < a

instance (a b : Nat) : Decidable (would_overflow_u64 a b) := by
  unfold would_overflow_u64
  infer_instance

/-- Outcome of `SolicitHostFunction::execute`: continuation code plus the
context pieces SOLICIT may mutate. -/
structure SolicitOutcome where
  resultCode : Nat
  registers : List Nat
  ram : PvmRam
  serviceAccount : Option CompleteServiceAccount
deriving Repr

/-- `SolicitHostFunction::execute` (solicit.rs:32).  `service_id as u32` and
`timeslot as u32` are `% 2^32`; `service_account.items + 2` is `u32`
addition, `% 2^32`. -/
def SolicitHostFunction_execute (requestKey : Nat → List Nat → Nat → List Nat)
    (registers : List Nat) (ram : PvmRam)
    (serviceAccount? : Option CompleteServiceAccount)
    (serviceId? : Option Nat) (timeslot? : Option Nat) : SolicitOutcome :=
  let hashOffset := registers.getD 7 0 % 2 ^ 32
  let preimageLength := registers.getD 8 0
  let readResult := read_octets ram hashOffset 32
  if readResult.1.faultAddress ≠ 0 then ⟨HOST_PANIC, registers, readResult.2, serviceAccount?⟩
  else
    match readResult.1.data with
    | Option.none => ⟨HOST_PANIC, registers, readResult.2, serviceAccount?⟩
    | some hashData =>
    if hashData.length ≠ 32 then ⟨HOST_PANIC, registers, readResult.2, serviceAccount?⟩
    else
    match serviceAccount? with
    | Option.none => ⟨HOST_CONTINUE, registers.set 7 REG_HUH, readResult.2, serviceAccount?⟩
    | some serviceAccount =>
    match serviceId? with
    | Option.none =>
        ⟨HOST_CONTINUE, registers.set 7 REG_HUH, readResult.2, some serviceAccount⟩
    | some serviceId0 =>
    let serviceId := serviceId0 % 2 ^ 32
    let existingRequestValue :=
      get_request_value requestKey serviceAccount serviceId hashData preimageLength
    -- (newTimeslots, isNewRequest), or the HUH early returns
    match hts : (match existingRequestValue with
      | Option.none => some ([], true)
      | some value =>
        match decode_request_timeslots value with
        | Option.none => Option.none
        | some existingTimeslots =>
          if existingTimeslots.length = 2 then
            match timeslot? with
            | Option.none => Option.none
            | some t => some (existingTimeslots ++ [t % 2 ^ 32], false)
          else Option.none : Option (List Nat × Bool)) with
    | Option.none =>
        ⟨HOST_CONTINUE, registers.set 7 REG_HUH, readResult.2, some serviceAccount⟩
    | some (newTimeslots, isNewRequest) =>
    let itemsOctets? : Option (Nat × Nat) :=
      if isNewRequest then
        let newItems := (serviceAccount.items + 2) % 2 ^ 32
        if would_overflow_u64 81 preimageLength then Option.none
        else
          let octetsIncrement := 81 + preimageLength
          if would_overflow_u64 serviceAccount.octets octetsIncrement then Option.none
          else some (newItems, serviceAccount.octets + octetsIncrement)
      else some (serviceAccount.items, serviceAccount.octets)
    match itemsOctets? with
    | Option.none =>
        ⟨HOST_CONTINUE, registers.set 7 REG_FULL, readResult.2, some serviceAccount⟩
    | some (newItems, newOctets) =>
    let itemDeposit := C_ITEM_DEPOSIT * newItems
    let byteDeposit := C_BYTE_DEPOSIT * newOctets
    if would_overflow_u64 C_BASE_DEPOSIT itemDeposit
        ∨ would_overflow_u64 (C_BASE_DEPOSIT + itemDeposit) byteDeposit then
      ⟨HOST_CONTINUE, registers.set 7 REG_FULL, readResult.2, some serviceAccount⟩
    else
      let totalDeposit := C_BASE_DEPOSIT + itemDeposit + byteDeposit
      let newMinBalance := totalDeposit - serviceAccount.gratis
      if serviceAccount.balance < newMinBalance then
        ⟨HOST_CONTINUE, registers.set 7 REG_FULL, readResult.2, some serviceAccount⟩
      else
        let account1 := set_request_value requestKey serviceAccount serviceId hashData
          preimageLength (encode_request_timeslots newTimeslots)
        let account2 :=
          if isNewRequest then { account1 with items := newItems, octets := newOctets }
          else account1
        ⟨HOST_CONTINUE, registers.set 7 REG_OK, readResult.2, some account2⟩

theorem lookupA_insertA_self {β : Type} (m : List (Nat × β)) (k : Nat) (v : β) :
    lookupA (insertA m k v) k = some v := by
  induction m with
  | nil => simp [insertA, lookupA]
  | cons kv rest ih =>
      by_cases h : kv.1 = k
      · simp [insertA, h, lookupA]
      · simp [insertA, h, lookupA, ih]

theorem toNat_max_zero (x : Int) : (max 0 x).toNat = x.toNat := by
  rcases le_total 0 x with h | h
  · rw [max_eq_right h]
  · rw [max_eq_left h]
    omega

/-- The claim\'s `max(0, …)` formula agrees with the saturating `u64`
computation of the source. -/
theorem minbalanceSpec_eq (acc : CompleteServiceAccount) :
    minbalanceSpec acc
      = C_BASE_DEPOSIT + C_ITEM_DEPOSIT * acc.items + C_BYTE_DEPOSIT * acc.octets
        - acc.gratis := by
  rw [minbalanceSpec, toNat_max_zero]
  simp only [C_BASE_DEPOSIT, C_ITEM_DEPOSIT, C_BYTE_DEPOSIT]
  omega

theorem raw_get_mem (l : List (List Nat × List Nat)) (key p : List Nat)
    (hp : raw_get l key = some p) : (key, p) ∈ l := by
  induction l with
  | nil => simp [raw_get] at hp
  | cons kv rest ih =>
      obtain ⟨k0, v0⟩ := kv
      rw [raw_get] at hp
      by_cases h : k0 = key
      · rw [if_pos h] at hp
        simp only [Option.some.injEq] at hp
        rw [h, hp]
        exact List.mem_cons_self _ _
      · rw [if_neg h] at hp
        exact List.mem_cons_of_mem _ (ih hp)


/-! ## C1: min-balance atomicity of WRITE and SOLICIT -/

theorem write_minbalance_atomic (storageKey : Nat → List Nat → List Nat)
    (registers : List Nat) (ram : PvmRam) (sid : Nat)
    (accounts : List (Nat × CompleteServiceAccount)) (acc : CompleteServiceAccount)
    (key value : List Nat)
    (hreg : registers.length = 13)
    (hfind : lookupA accounts sid = some acc)
    (hitems : acc.items + 1 < 2 ^ 32)
    (hoct : acc.octets < 2 ^ 62)
    (hitems1 : 1 ≤ acc.items ∨ acc.rawCshKeyvals = [])
    (hvals : ∀ kv ∈ acc.rawCshKeyvals, (kv : List Nat × List Nat).2.length < 2 ^ 32)
    (hkey : (read_octets ram (registers.getD 7 0 % 2 ^ 32)
        (registers.getD 8 0 % 2 ^ 32)).1 = ⟨some key, 0⟩)
    (hkeylen : key.length < 2 ^ 32)
    (hval : registers.getD 10 0 ≠ 0 →
      (read_octets (read_octets ram (registers.getD 7 0 % 2 ^ 32)
          (registers.getD 8 0 % 2 ^ 32)).2
        (registers.getD 9 0 % 2 ^ 32) (registers.getD 10 0 % 2 ^ 32)).1
        = ⟨some value, 0⟩)
    (hvallen : value.length < 2 ^ 32) :
    (get_register (WriteHostFunction_execute storageKey registers ram (some sid)
          (some accounts)).registers 7 = REG_FULL →
        (WriteHostFunction_execute storageKey registers ram (some sid)
          (some accounts)).accounts = some accounts) ∧
    (get_register (WriteHostFunction_execute storageKey registers ram (some sid)
          (some accounts)).registers 7 ≠ REG_FULL →
        ∀ accounts' acc',
          (WriteHostFunction_execute storageKey registers ram (some sid)
            (some accounts)).accounts = some accounts' →
          lookupA accounts' sid = some acc' →
          minbalanceSpec acc' ≤ acc'.balance) := by
  have hget7 : ∀ v, get_register (registers.set 7 v) 7 = v := by
    intro v
    have := get_register_set_register registers 7 v hreg (by omega)
    rwa [set_register, if_pos (by omega)] at this
  have hFULLNONE : REG_NONE ≠ REG_FULL := by norm_num [REG_NONE, REG_FULL]
  rcases hpm : get_storage_value storageKey acc sid key with _ | p
  · -- prev = none
    by_cases hv0 : registers.getD 10 0 = 0
    · -- delete branch, key absent: nothing deleted
      rw [WriteHostFunction_execute]
      simp only [hfind, hkey, hpm, hv0]
      norm_num
      by_cases hfull : acc.balance
          < calculate_min_balance (acc.items % 18446744073709551616) acc.octets acc.gratis
      · rw [if_pos hfull]
        exact ⟨fun _ => rfl, fun h7 => absurd (hget7 REG_FULL) h7⟩
      · rw [if_neg hfull]
        refine ⟨fun h7 => absurd (hget7 REG_NONE ▸ h7) hFULLNONE, ?_⟩
        intro h7 accounts' acc' haccs hlook
        simp only [Option.some.injEq] at haccs
        rw [← haccs, lookupA_insertA_self, Option.some.injEq] at hlook
        rw [← hlook, minbalanceSpec_eq]
        simp only [C_BASE_DEPOSIT, C_ITEM_DEPOSIT, C_BYTE_DEPOSIT]
        rw [calculate_min_balance] at hfull
        simp only [C_BASE_DEPOSIT, C_ITEM_DEPOSIT, C_BYTE_DEPOSIT] at hfull
        have e1 : acc.items % 18446744073709551616 = acc.items := by omega
        have e2 : acc.items % 4294967296 = acc.items := by omega
        rw [e1] at hfull
        rw [e2]
        have e3 : (100 + 10 * acc.items + 1 * acc.octets) % 2 ^ 64
            = 100 + 10 * acc.items + 1 * acc.octets := by omega
        rw [e3] at hfull
        omega
    · -- write branch, key absent: insert
      have hv := hval hv0
      rw [WriteHostFunction_execute]
      simp only [hfind, hkey, hpm, hv0, hv]
      norm_num
      have hto : toInt64 acc.octets = (acc.octets : Int) := by
        rw [toInt64, if_pos (by omega)]
      by_cases hfull : acc.balance
          < calculate_min_balance ((acc.items + 1) % 18446744073709551616)
              ((toInt64 acc.octets + (34 + ↑key.length + ↑value.length)) ⊔ 0).toNat acc.gratis
      · rw [if_pos hfull]
        exact ⟨fun _ => rfl, fun h7 => absurd (hget7 REG_FULL) h7⟩
      · rw [if_neg hfull]
        refine ⟨fun h7 => absurd (hget7 REG_NONE ▸ h7) hFULLNONE, ?_⟩
        intro h7 accounts' acc' haccs hlook
        simp only [Option.some.injEq] at haccs
        rw [← haccs, lookupA_insertA_self, Option.some.injEq] at hlook
        rw [← hlook, minbalanceSpec_eq]
        simp only [set_storage_value]
        rw [calculate_min_balance] at hfull
        simp only [C_BASE_DEPOSIT, C_ITEM_DEPOSIT, C_BYTE_DEPOSIT] at hfull ⊢
        rw [max_comm, toNat_max_zero, hto] at hfull ⊢
        have e1 : (acc.items + 1) % 18446744073709551616 = acc.items + 1 := by omega
        rw [e1] at hfull
        have e2 : (((acc.octets : Int) + (34 + key.length + value.length)).toNat : Nat)
            ≤ acc.octets + 34 + key.length + value.length := by omega
        have e3 : (100 + 10 * (acc.items + 1)
            + 1 * ((acc.octets : Int) + (34 + key.length + value.length)).toNat)
            % 2 ^ 64
            = 100 + 10 * (acc.items + 1)
              + 1 * ((acc.octets : Int) + (34 + key.length + value.length)).toNat := by omega
        rw [e3] at hfull
        omega
  · -- prev = some p
    have hplen : p.length < 2 ^ 32 :=
      hvals _ (raw_get_mem acc.rawCshKeyvals (storageKey sid key) p hpm)
    have hpFULL : (p.length : Nat) ≠ REG_FULL := by
      simp only [REG_FULL]
      omega
    by_cases hv0 : registers.getD 10 0 = 0
    · -- delete branch, key present
      rw [WriteHostFunction_execute]
      simp only [hfind, hkey, hpm, hv0]
      norm_num
      have hit1 : 1 ≤ acc.items := by
        rcases hitems1 with h | h
        · exact h
        · rw [get_storage_value, h] at hpm
          simp [raw_get] at hpm
      by_cases hfull : acc.balance
          < calculate_min_balance ((18446744073709551615 + acc.items) % 18446744073709551616)
              (acc.octets - (34 + key.length + p.length) % 18446744073709551616) acc.gratis
      · rw [if_pos hfull]
        exact ⟨fun _ => rfl, fun h7 => absurd (hget7 REG_FULL) h7⟩
      · rw [if_neg hfull]
        refine ⟨fun h7 => absurd (hget7 p.length ▸ h7) hpFULL, ?_⟩
        intro h7 accounts' acc' haccs hlook
        simp only [Option.some.injEq] at haccs
        rw [← haccs, lookupA_insertA_self, Option.some.injEq] at hlook
        rw [← hlook, minbalanceSpec_eq]
        simp only [delete_storage_value]
        rw [calculate_min_balance] at hfull
        simp only [C_BASE_DEPOSIT, C_ITEM_DEPOSIT, C_BYTE_DEPOSIT] at hfull ⊢
        have e2 : (34 + key.length + p.length) % 18446744073709551616
            = 34 + key.length + p.length := by omega
        rw [e2] at hfull ⊢
        have e1 : (18446744073709551615 + acc.items) % 18446744073709551616
            = acc.items - 1 := by omega
        rw [e1] at hfull
        have e3 : (18446744073709551615 + acc.items) % 4294967296 = acc.items - 1 := by omega
        rw [e3]
        have e4 : (100 + 10 * (acc.items - 1) + 1 * (acc.octets - (34 + key.length + p.length)))
            % 2 ^ 64
            = 100 + 10 * (acc.items - 1) + 1 * (acc.octets - (34 + key.length + p.length)) := by
          omega
        rw [e4] at hfull
        omega
    · -- write branch, key present: overwrite
      have hv := hval hv0
      rw [WriteHostFunction_execute]
      simp only [hfind, hkey, hpm, hv0, hv]
      norm_num
      have hto : toInt64 acc.octets = (acc.octets : Int) := by
        rw [toInt64, if_pos (by omega)]
      by_cases hfull : acc.balance
          < calculate_min_balance (acc.items % 18446744073709551616)
              ((toInt64 acc.octets + ((value.length : Int) - (p.length : Int))) ⊔ 0).toNat
              acc.gratis
      · rw [if_pos hfull]
        exact ⟨fun _ => rfl, fun h7 => absurd (hget7 REG_FULL) h7⟩
      · rw [if_neg hfull]
        refine ⟨fun h7 => absurd (hget7 p.length ▸ h7) hpFULL, ?_⟩
        intro h7 accounts' acc' haccs hlook
        simp only [Option.some.injEq] at haccs
        rw [← haccs, lookupA_insertA_self, Option.some.injEq] at hlook
        rw [← hlook, minbalanceSpec_eq]
        simp only [set_storage_value]
        rw [calculate_min_balance] at hfull
        simp only [C_BASE_DEPOSIT, C_ITEM_DEPOSIT, C_BYTE_DEPOSIT] at hfull ⊢
        rw [max_comm, toNat_max_zero, hto] at hfull ⊢
        have e1 : acc.items % 18446744073709551616 = acc.items := by omega
        rw [e1] at hfull
        have e2 : (((acc.octets : Int) + ((value.length : Int) - (p.length : Int))).toNat : Nat)
            ≤ acc.octets + value.length := by omega
        have e3 : (100 + 10 * acc.items
            + 1 * ((acc.octets : Int) + ((value.length : Int) - (p.length : Int))).toNat)
            % 2 ^ 64
            = 100 + 10 * acc.items
              + 1 * ((acc.octets : Int) + ((value.length : Int) - (p.length : Int))).toNat := by
          omega
        rw [e3] at hfull
        have e4 : acc.items % 4294967296 = acc.items := by omega
        rw [e4]
        omega


theorem solicit_minbalance_atomic (requestKey : Nat → List Nat → Nat → List Nat)
    (registers : List Nat) (ram : PvmRam) (acc : CompleteServiceAccount)
    (sid0 : Nat) (ts? : Option Nat) (hashData : List Nat)
    (hreg : registers.length = 13)
    (hhash : (read_octets ram (registers.getD 7 0 % 2 ^ 32) 32).1 = ⟨some hashData, 0⟩)
    (hlen : hashData.length = 32) :
    (get_register (SolicitHostFunction_execute requestKey registers ram (some acc)
          (some sid0) ts?).registers 7 = REG_FULL →
        (SolicitHostFunction_execute requestKey registers ram (some acc)
          (some sid0) ts?).serviceAccount = some acc) ∧
    (get_register (SolicitHostFunction_execute requestKey registers ram (some acc)
          (some sid0) ts?).registers 7 = REG_OK →
        ∀ acc',
          (SolicitHostFunction_execute requestKey registers ram (some acc)
            (some sid0) ts?).serviceAccount = some acc' →
          minbalanceSpec acc' ≤ acc'.balance) := by
  have hget7 : ∀ v, get_register (registers.set 7 v) 7 = v := by
    intro v
    have := get_register_set_register registers 7 v hreg (by omega)
    rwa [set_register, if_pos (by omega)] at this
  have hFO : REG_FULL ≠ REG_OK := by norm_num [REG_FULL, REG_OK]
  have hOF : REG_OK ≠ REG_FULL := by norm_num [REG_FULL, REG_OK]
  have hHF : REG_HUH ≠ REG_FULL := by norm_num [REG_HUH, REG_FULL]
  have hHO : REG_HUH ≠ REG_OK := by norm_num [REG_HUH, REG_OK]
  rw [SolicitHostFunction_execute]
  simp only [hhash, hlen]
  norm_num
  split
  · -- request-shape analysis failed: HUH, account unchanged
    refine ⟨fun h7 => ?_, fun h7 => ?_⟩ <;>
      · rw [hget7] at h7
        try norm_num [REG_HUH, REG_FULL, REG_OK] at h7
  · rename_i nt inr heq
    rcases hgev : get_request_value requestKey acc (sid0 % 2 ^ 32) hashData
        (registers.getD 8 0) with _ | v
    · -- no existing request: new request, isNewRequest = true
      rw [hgev] at heq
      simp only [Option.some.injEq, Prod.mk.injEq] at heq
      obtain ⟨hnt, hinr⟩ := heq
      subst hinr
      rw [if_pos rfl]
      by_cases h81 : would_overflow_u64 81 (registers[8]?.getD 0)
      · rw [if_pos h81]
        simp only []
        refine ⟨fun h7 => by trivial, fun h7 => ?_⟩
        rw [hget7] at h7
        try norm_num [REG_FULL, REG_OK] at h7
      · rw [if_neg h81]
        by_cases hoo : would_overflow_u64 acc.octets (81 + registers[8]?.getD 0)
        · rw [if_pos hoo]
          simp only []
          refine ⟨fun h7 => by trivial, fun h7 => ?_⟩
          rw [hget7] at h7
          try norm_num [REG_FULL, REG_OK] at h7
        · rw [if_neg hoo]
          simp only []
          by_cases hdep : would_overflow_u64 C_BASE_DEPOSIT
                (C_ITEM_DEPOSIT * ((acc.items + 2) % 4294967296))
              ∨ would_overflow_u64
                (C_BASE_DEPOSIT + C_ITEM_DEPOSIT * ((acc.items + 2) % 4294967296))
                (C_BYTE_DEPOSIT * (acc.octets + (81 + registers[8]?.getD 0)))
          · rw [if_pos hdep]
            refine ⟨fun h7 => by trivial, fun h7 => ?_⟩
            rw [hget7] at h7
            try norm_num [REG_FULL, REG_OK] at h7
          · rw [if_neg hdep]
            by_cases hbal : acc.balance
                < C_BASE_DEPOSIT + C_ITEM_DEPOSIT * ((acc.items + 2) % 4294967296)
                  + C_BYTE_DEPOSIT * (acc.octets + (81 + registers[8]?.getD 0)) - acc.gratis
            · rw [if_pos hbal]
              refine ⟨fun h7 => by trivial, fun h7 => ?_⟩
              rw [hget7] at h7
              try norm_num [REG_FULL, REG_OK] at h7
            · rw [if_neg hbal]
              refine ⟨fun h7 => ?_, fun h7 => ?_⟩
              · rw [hget7] at h7
                try norm_num [REG_FULL, REG_OK] at h7
              · intro acc' haccs
                rw [if_pos trivial] at haccs
                simp only [Option.some.injEq] at haccs
                rw [← haccs, minbalanceSpec_eq]
                simp only [set_request_value]
                simp only [C_BASE_DEPOSIT, C_ITEM_DEPOSIT, C_BYTE_DEPOSIT] at hbal ⊢
                omega
    · -- existing request value v
      rw [hgev] at heq
      simp only [] at heq
      rcases hdec : decode_request_timeslots v with _ | ets
      · rw [hdec] at heq
        simp at heq
      · rw [hdec] at heq
        simp only [] at heq
        by_cases hl2 : ets.length = 2
        · rw [if_pos hl2] at heq
          rcases ts? with _ | t
          · simp at heq
          · simp only [Option.some.injEq, Prod.mk.injEq] at heq
            obtain ⟨hnt, hinr⟩ := heq
            subst hinr
            rw [if_neg Bool.false_ne_true]
            simp only []
            by_cases hdep : would_overflow_u64 C_BASE_DEPOSIT (C_ITEM_DEPOSIT * acc.items)
                ∨ would_overflow_u64 (C_BASE_DEPOSIT + C_ITEM_DEPOSIT * acc.items)
                  (C_BYTE_DEPOSIT * acc.octets)
            · rw [if_pos hdep]
              refine ⟨fun h7 => by trivial, fun h7 => ?_⟩
              rw [hget7] at h7
              try norm_num [REG_FULL, REG_OK] at h7
            · rw [if_neg hdep]
              by_cases hbal : acc.balance
                  < C_BASE_DEPOSIT + C_ITEM_DEPOSIT * acc.items
                    + C_BYTE_DEPOSIT * acc.octets - acc.gratis
              · rw [if_pos hbal]
                refine ⟨fun h7 => by trivial, fun h7 => ?_⟩
                rw [hget7] at h7
                try norm_num [REG_FULL, REG_OK] at h7
              · rw [if_neg hbal]
                refine ⟨fun h7 => ?_, fun h7 => ?_⟩
                · rw [hget7] at h7
                  try norm_num [REG_FULL, REG_OK] at h7
                · intro acc' haccs
                  rw [if_neg Bool.false_ne_true] at haccs
                  simp only [Option.some.injEq] at haccs
                  rw [← haccs, minbalanceSpec_eq]
                  simp only [set_request_value]
                  simp only [C_BASE_DEPOSIT, C_ITEM_DEPOSIT, C_BYTE_DEPOSIT] at hbal ⊢
                  omega
        · rw [if_neg hl2] at heq
          simp at heq


theorem readLoop_eq_stop (pages : List (Nat × List Nat)) (c e : Nat) (h : ¬ c < e) :
    readLoop pages c e = .ok [] := by
  rw [readLoop, dif_neg h]

theorem readLoop_eq_step (pages : List (Nat × List Nat)) (c e : Nat) (h : c < e)
    (page : List Nat) (hp : lookupA pages (c / PAGE_SIZE) = some page) :
    readLoop pages c e
      = match readLoop pages (c + min (e - c) (PAGE_SIZE - c % PAGE_SIZE)) e with
        | .error f => .error f
        | .ok rest => .ok ((page.drop (c % PAGE_SIZE)).take
            (min (e - c) (PAGE_SIZE - c % PAGE_SIZE)) ++ rest) := by
  rw [readLoop, dif_pos h]
  simp only [hp]
  try rfl

/-- Concrete service account for evaluating the C1 obligations: empty
key-value store, balance 1000. -/
def c1acc : CompleteServiceAccount := ⟨[], 1000, 0, 0, 0, 0, 0, 0, 0, 0, []⟩

/-- Concrete RAM for evaluating the C1 obligations: page 0 present (sparse,
no stored bytes, so reads return zeros) and readable. -/
def c1ram : PvmRam := ⟨[(0, [])], [(0, .read)], 0, 0, 0, 0⟩

/-- **C1** Min-balance atomicity of WRITE and SOLICIT.  Both host calls
compute the prospective `items`/`octets` first and compare the resulting
minimum balance against the current balance.  WRITE: whenever `r7` comes back
`FULL` the accounts map is returned untouched, and whenever it is not `FULL`
the account stored for the service satisfies
`minbalance = max(0, 100 + 10*items + octets - gratis) <= balance`.
SOLICIT: whenever `r7` comes back `FULL` the service account is returned
untouched, and whenever the call completes with `r7 = OK` the mutated account
satisfies the same invariant.  (The WRITE part assumes the key/value reads
succeed, non-degenerate `u32`/`u64` ranges for the counters, and an `items`
count consistent with the store, all of which hold in the interpreter.) -/
theorem C1_minbalance_atomicity :
    (∀ (storageKey : Nat → List Nat → List Nat) (registers : List Nat) (ram : PvmRam)
        (sid : Nat) (accounts : List (Nat × CompleteServiceAccount))
        (acc : CompleteServiceAccount) (key value : List Nat),
      registers.length = 13 →
      lookupA accounts sid = some acc →
      acc.items + 1 < 2 ^ 32 →
      acc.octets < 2 ^ 62 →
      (1 ≤ acc.items ∨ acc.rawCshKeyvals = []) →
      (∀ kv ∈ acc.rawCshKeyvals, (kv : List Nat × List Nat).2.length < 2 ^ 32) →
      (read_octets ram (registers.getD 7 0 % 2 ^ 32)
          (registers.getD 8 0 % 2 ^ 32)).1 = ⟨some key, 0⟩ →
      key.length < 2 ^ 32 →
      (registers.getD 10 0 ≠ 0 →
        (read_octets (read_octets ram (registers.getD 7 0 % 2 ^ 32)
            (registers.getD 8 0 % 2 ^ 32)).2
          (registers.getD 9 0 % 2 ^ 32) (registers.getD 10 0 % 2 ^ 32)).1
          = ⟨some value, 0⟩) →
      value.length < 2 ^ 32 →
      (get_register (WriteHostFunction_execute storageKey registers ram (some sid)
            (some accounts)).registers 7 = REG_FULL →
          (WriteHostFunction_execute storageKey registers ram (some sid)
            (some accounts)).accounts = some accounts) ∧
      (get_register (WriteHostFunction_execute storageKey registers ram (some sid)
            (some accounts)).registers 7 ≠ REG_FULL →
          ∀ accounts' acc',
            (WriteHostFunction_execute storageKey registers ram (some sid)
              (some accounts)).accounts = some accounts' →
            lookupA accounts' sid = some acc' →
            minbalanceSpec acc' ≤ acc'.balance)) ∧
    (∀ (requestKey : Nat → List Nat → Nat → List Nat) (registers : List Nat)
        (ram : PvmRam) (acc : CompleteServiceAccount) (sid0 : Nat)
        (ts? : Option Nat) (hashData : List Nat),
      registers.length = 13 →
      (read_octets ram (registers.getD 7 0 % 2 ^ 32) 32).1 = ⟨some hashData, 0⟩ →
      hashData.length = 32 →
      (get_register (SolicitHostFunction_execute requestKey registers ram (some acc)
            (some sid0) ts?).registers 7 = REG_FULL →
          (SolicitHostFunction_execute requestKey registers ram (some acc)
            (some sid0) ts?).serviceAccount = some acc) ∧
      (get_register (SolicitHostFunction_execute requestKey registers ram (some acc)
            (some sid0) ts?).registers 7 = REG_OK →
          ∀ acc',
            (SolicitHostFunction_execute requestKey registers ram (some acc)
              (some sid0) ts?).serviceAccount = some acc' →
            minbalanceSpec acc' ≤ acc'.balance)) :=
  ⟨fun storageKey registers ram sid accounts acc key value hreg hfind hitems hoct
      hitems1 hvals hkey hkeylen hval hvallen =>
    write_minbalance_atomic storageKey registers ram sid accounts acc key value
      hreg hfind hitems hoct hitems1 hvals hkey hkeylen hval hvallen,
   fun requestKey registers ram acc sid0 ts? hashData hreg hhash hlen =>
    solicit_minbalance_atomic requestKey registers ram acc sid0 ts? hashData
      hreg hhash hlen⟩

/-- **C1 witness**: both halves applied at concrete inputs — a WRITE delete
of an absent empty key against a one-account map, and a SOLICIT of a fresh
32-zero-byte hash — with every hypothesis discharged by evaluation. -/
theorem C1_minbalance_atomicity_witness :
    ((get_register (WriteHostFunction_execute (fun _ _ => [])
          (List.replicate 13 0) c1ram (some 0) (some [(0, c1acc)])).registers 7
        = REG_FULL →
      (WriteHostFunction_execute (fun _ _ => [])
          (List.replicate 13 0) c1ram (some 0) (some [(0, c1acc)])).accounts
        = some [(0, c1acc)]) ∧
     (get_register (WriteHostFunction_execute (fun _ _ => [])
          (List.replicate 13 0) c1ram (some 0) (some [(0, c1acc)])).registers 7
        ≠ REG_FULL →
      ∀ accounts' acc',
        (WriteHostFunction_execute (fun _ _ => [])
            (List.replicate 13 0) c1ram (some 0) (some [(0, c1acc)])).accounts
          = some accounts' →
        lookupA accounts' 0 = some acc' →
        minbalanceSpec acc' ≤ acc'.balance)) ∧
    ((get_register (SolicitHostFunction_execute (fun _ _ _ => [])
          (List.replicate 13 0) c1ram (some c1acc) (some 0) Option.none).registers 7
        = REG_FULL →
      (SolicitHostFunction_execute (fun _ _ _ => [])
          (List.replicate 13 0) c1ram (some c1acc) (some 0) Option.none).serviceAccount
        = some c1acc) ∧
     (get_register (SolicitHostFunction_execute (fun _ _ _ => [])
          (List.replicate 13 0) c1ram (some c1acc) (some 0) Option.none).registers 7
        = REG_OK →
      ∀ acc',
        (SolicitHostFunction_execute (fun _ _ _ => [])
            (List.replicate 13 0) c1ram (some c1acc) (some 0) Option.none).serviceAccount
          = some acc' →
        minbalanceSpec acc' ≤ acc'.balance)) :=
  ⟨C1_minbalance_atomicity.1 (fun _ _ => []) (List.replicate 13 0) c1ram 0
      [(0, c1acc)] c1acc [] [] (by decide) (by decide) (by decide) (by decide)
      (Or.inr (by decide)) (by decide)
      (by
        rw [read_octets]
        norm_num [is_readable_with_fault]
        rw [readLoop_eq_stop _ 0 0 (by norm_num)])
      (by decide) (fun h => absurd (by decide) h) (by decide),
   C1_minbalance_atomicity.2 (fun _ _ _ => []) (List.replicate 13 0) c1ram c1acc 0
      Option.none (List.replicate 32 0) (by decide)
      (by
        have hrl : readLoop [(0, [])] 0 32 = .ok [] := by
          rw [readLoop_eq_step [(0, [])] 0 32 (by norm_num) []
            (by norm_num [lookupA, PAGE_SIZE])]
          norm_num [PAGE_SIZE]
          rw [readLoop_eq_stop _ 32 32 (by norm_num)]
        rw [read_octets]
        norm_num [is_readable_with_fault, firstBadPage, accessOf, lookupA, c1ram,
          PAGE_SIZE, List.range']
        rw [hrl]
        decide)
      (by decide)⟩



/-! ## C4: TRANSFER contract and the gas-limit truncation -/

/-- `DeferredTransfer` (codec/impl_.rs:711). -/
structure DeferredTransfer where
  source : Nat
  dest : Nat
  amount : Nat
  memo : List Nat
  gasLimit : Nat
deriving DecidableEq, Repr

/-- Outcome of `TransferHostFunction::execute`: the continuation code and the
context pieces TRANSFER may mutate (registers, RAM trace, the current service
account, the accounts map, the pending transfers, the `u32` gas counter). -/
structure TransferOutcome where
  resultCode : Nat
  registers : List Nat
  ram : PvmRam
  serviceAccount : Option CompleteServiceAccount
  accounts : Option (List (Nat × CompleteServiceAccount))
  xfers : Option (List DeferredTransfer)
  gas : Nat
deriving Repr

/-- `TransferHostFunction::minbalance` (transfer.rs:17): two saturating `u64`
additions (`min · (2^64 - 1)`), then `saturating_sub(gratis)`. -/
def transfer_minbalance (account : CompleteServiceAccount) : Nat :=
  min (min (C_BASE_DEPOSIT + C_ITEM_DEPOSIT * account.items) (2 ^ 64 - 1)
    + C_BYTE_DEPOSIT * account.octets) (2 ^ 64 - 1) - account.gratis

/-- `TransferHostFunction::execute` (transfer.rs:32).  `memo_offset as u32`,
`service_id as u32`, `dest as u32` and `gas_limit as u32` are `% 2^32`; the
`u32` gas counter's `saturating_sub` is `Nat` subtraction.  The
`current_account` acquisition (transfer.rs:100) prefers
`context.service_account` and falls back to the accounts map, so the success
branch appears once per acquisition path. -/
def TransferHostFunction_execute (registers : List Nat) (ram : PvmRam)
    (serviceId? : Option Nat)
    (accounts? : Option (List (Nat × CompleteServiceAccount)))
    (serviceAccount? : Option CompleteServiceAccount)
    (xfers? : Option (List DeferredTransfer)) (gas : Nat) : TransferOutcome :=
  let dest := registers.getD 7 0
  let amount := registers.getD 8 0
  let gasLimit := registers.getD 9 0
  let memoOffset := registers.getD 10 0
  let readResult := read_octets ram (memoOffset % 2 ^ 32) C_MEMO_SIZE
  if readResult.1.faultAddress ≠ 0 ∨ readResult.1.data = Option.none then
    ⟨HOST_PANIC, registers, readResult.2, serviceAccount?, accounts?, xfers?, gas⟩
  else
    let memoData := readResult.1.data.getD []
    if memoData.length ≠ C_MEMO_SIZE then
      ⟨HOST_PANIC, registers, readResult.2, serviceAccount?, accounts?, xfers?, gas⟩
    else
      match serviceId? with
      | Option.none =>
          ⟨HOST_CONTINUE, registers.set 7 REG_HUH, readResult.2, serviceAccount?,
            accounts?, xfers?, gas⟩
      | some sid0 =>
      let serviceId := sid0 % 2 ^ 32
      match accounts? with
      | Option.none =>
          ⟨HOST_CONTINUE, registers.set 7 REG_WHO, readResult.2, serviceAccount?,
            accounts?, xfers?, gas⟩
      | some accounts =>
      if ¬ (serviceAccount?.isSome = true ∨ (lookupA accounts serviceId).isSome = true) then
        ⟨HOST_CONTINUE, registers.set 7 REG_HUH, readResult.2, serviceAccount?,
          some accounts, xfers?, gas⟩
      else
        match lookupA accounts dest with
        | Option.none =>
            ⟨HOST_CONTINUE, registers.set 7 REG_WHO, readResult.2, serviceAccount?,
              some accounts, xfers?, gas⟩
        | some destAcc =>
        match serviceAccount? with
        | some curAcc =>
            if gasLimit < destAcc.minmemogas then
              ⟨HOST_CONTINUE, registers.set 7 REG_LOW, readResult.2, some curAcc,
                some accounts, xfers?, gas⟩
            else if curAcc.balance < amount then
              ⟨HOST_CONTINUE, registers.set 7 REG_CASH, readResult.2, some curAcc,
                some accounts, xfers?, gas⟩
            else if curAcc.balance - amount < transfer_minbalance curAcc then
              ⟨HOST_CONTINUE, registers.set 7 REG_CASH, readResult.2, some curAcc,
                some accounts, xfers?, gas⟩
            else
              ⟨HOST_CONTINUE, registers.set 7 REG_OK, readResult.2,
                some { curAcc with balance := curAcc.balance - amount },
                some accounts,
                (match xfers? with
                  | some xfers => some (xfers
                      ++ [⟨serviceId, dest % 2 ^ 32, amount, memoData, gasLimit⟩])
                  | Option.none => Option.none),
                gas - gasLimit % 2 ^ 32⟩
        | Option.none =>
        match lookupA accounts serviceId with
        | Option.none =>
            ⟨HOST_CONTINUE, registers.set 7 REG_HUH, readResult.2, Option.none,
              some accounts, xfers?, gas⟩
        | some curAcc =>
            if gasLimit < destAcc.minmemogas then
              ⟨HOST_CONTINUE, registers.set 7 REG_LOW, readResult.2, Option.none,
                some accounts, xfers?, gas⟩
            else if curAcc.balance < amount then
              ⟨HOST_CONTINUE, registers.set 7 REG_CASH, readResult.2, Option.none,
                some accounts, xfers?, gas⟩
            else if curAcc.balance - amount < transfer_minbalance curAcc then
              ⟨HOST_CONTINUE, registers.set 7 REG_CASH, readResult.2, Option.none,
                some accounts, xfers?, gas⟩
            else
              ⟨HOST_CONTINUE, registers.set 7 REG_OK, readResult.2, Option.none,
                some (insertA accounts serviceId
                  { curAcc with balance := curAcc.balance - amount }),
                (match xfers? with
                  | some xfers => some (xfers
                      ++ [⟨serviceId, dest % 2 ^ 32, amount, memoData, gasLimit⟩])
                  | Option.none => Option.none),
                gas - gasLimit % 2 ^ 32⟩

/-- The TRANSFER-local saturating minbalance agrees with the claim formula
`max(0, 100 + 10*items + octets - gratis)` whenever the counters are in their
`u32`/documented ranges (no saturation is hit). -/
theorem transfer_minbalance_eq (acc : CompleteServiceAccount)
    (hitems : acc.items < 2 ^ 32) (hoct : acc.octets < 2 ^ 62) :
    transfer_minbalance acc = minbalanceSpec acc := by
  rw [transfer_minbalance, minbalanceSpec, toNat_max_zero]
  simp only [C_BASE_DEPOSIT, C_ITEM_DEPOSIT, C_BYTE_DEPOSIT]
  omega

/-- Evaluation helper: a 128-byte memo read at address 0 of `c1ram` succeeds
and returns 128 zero bytes (page 0 is present and readable, sparse). -/
theorem c4_memo_read :
    read_octets c1ram (0 % 2 ^ 32) C_MEMO_SIZE
      = (⟨some (List.replicate 128 0), 0⟩, c1ram) := by
  have hrl : readLoop [(0, [])] 0 128 = .ok [] := by
    rw [readLoop_eq_step [(0, [])] 0 128 (by norm_num) []
      (by norm_num [lookupA, PAGE_SIZE])]
    norm_num [PAGE_SIZE]
    rw [readLoop_eq_stop _ 128 128 (by norm_num)]
  rw [read_octets]
  norm_num [is_readable_with_fault, firstBadPage, accessOf, lookupA, c1ram,
    PAGE_SIZE, List.range', C_MEMO_SIZE]
  rw [hrl]
  decide

set_option maxRecDepth 10000 in
/-- **C4 counterexample.**  `TRANSFER` deducts `gas_limit as u32`
(transfer.rs:151), not the full `u64` gas limit of the claim: with
`gasLimit = 2^32` (r9) and a 5-gas counter the success path leaves the gas
counter at 5, whereas the claim\'s "additional gasLimit gas subtracted
(saturating)" predicts `5 - 2^32 = 0`. -/
theorem C4_gas_truncation_counterexample :
    (TransferHostFunction_execute [0,0,0,0,0,0,0,1,0,4294967296,0,0,0] c1ram (some 0)
        (some [(0, c1acc), (1, c1acc)]) Option.none (some []) 5).registers
      = List.set [0,0,0,0,0,0,0,1,0,4294967296,0,0,0] 7 REG_OK ∧
    (TransferHostFunction_execute [0,0,0,0,0,0,0,1,0,4294967296,0,0,0] c1ram (some 0)
        (some [(0, c1acc), (1, c1acc)]) Option.none (some []) 5).gas = 5 ∧
    (TransferHostFunction_execute [0,0,0,0,0,0,0,1,0,4294967296,0,0,0] c1ram (some 0)
        (some [(0, c1acc), (1, c1acc)]) Option.none (some []) 5).gas ≠ 5 - 2 ^ 32 := by
  have hmemo := c4_memo_read
  rw [TransferHostFunction_execute]
  norm_num at hmemo ⊢
  rw [hmemo]
  decide

/-- **C4 (amended).**  TRANSFER contract at the interpreter call shape
(`service_account = None`, accounts map and xfers present, memo read
succeeding with 128 bytes, source account present with in-range counters):
if the destination is absent `r7 = WHO` and nothing changes; else if
`gasLimit < destination.minmemogas` then `r7 = LOW` and nothing changes; else
if `balance < amount` or `balance - amount < minbalance` (the claim\'s
`max(0, 100 + 10*items + octets - gratis)` formula) then `r7 = CASH` and
nothing changes; otherwise `r7 = OK`, exactly `amount` is subtracted from the
caller\'s balance, `DeferredTransfer{source, dest, amount, memo, gasLimit}`
is appended, and — correcting the claim — the additional gas subtracted
(saturating) from the `u32` gas counter is `gasLimit mod 2^32`, not
`gasLimit`. -/
theorem C4_transfer_contract (registers : List Nat) (ram : PvmRam) (sid0 : Nat)
    (accounts : List (Nat × CompleteServiceAccount)) (srcAcc : CompleteServiceAccount)
    (xfers : List DeferredTransfer) (gas : Nat) (memo : List Nat)
    (hmemo : (read_octets ram (registers.getD 10 0 % 2 ^ 32) C_MEMO_SIZE).1
      = ⟨some memo, 0⟩)
    (hmlen : memo.length = 128)
    (hsrc : lookupA accounts (sid0 % 2 ^ 32) = some srcAcc)
    (hitems : srcAcc.items < 2 ^ 32) (hoct : srcAcc.octets < 2 ^ 62) :
    (lookupA accounts (registers.getD 7 0) = Option.none →
      (TransferHostFunction_execute registers ram (some sid0) (some accounts)
          Option.none (some xfers) gas)
        = ⟨HOST_CONTINUE, registers.set 7 REG_WHO,
            (read_octets ram (registers.getD 10 0 % 2 ^ 32) C_MEMO_SIZE).2,
            Option.none, some accounts, some xfers, gas⟩) ∧
    (∀ destAcc, lookupA accounts (registers.getD 7 0) = some destAcc →
      registers.getD 9 0 < destAcc.minmemogas →
      (TransferHostFunction_execute registers ram (some sid0) (some accounts)
          Option.none (some xfers) gas)
        = ⟨HOST_CONTINUE, registers.set 7 REG_LOW,
            (read_octets ram (registers.getD 10 0 % 2 ^ 32) C_MEMO_SIZE).2,
            Option.none, some accounts, some xfers, gas⟩) ∧
    (∀ destAcc, lookupA accounts (registers.getD 7 0) = some destAcc →
      ¬ registers.getD 9 0 < destAcc.minmemogas →
      (srcAcc.balance < registers.getD 8 0
        ∨ srcAcc.balance - registers.getD 8 0 < minbalanceSpec srcAcc) →
      (TransferHostFunction_execute registers ram (some sid0) (some accounts)
          Option.none (some xfers) gas)
        = ⟨HOST_CONTINUE, registers.set 7 REG_CASH,
            (read_octets ram (registers.getD 10 0 % 2 ^ 32) C_MEMO_SIZE).2,
            Option.none, some accounts, some xfers, gas⟩) ∧
    (∀ destAcc, lookupA accounts (registers.getD 7 0) = some destAcc →
      ¬ registers.getD 9 0 < destAcc.minmemogas →
      ¬ (srcAcc.balance < registers.getD 8 0
        ∨ srcAcc.balance - registers.getD 8 0 < minbalanceSpec srcAcc) →
      (TransferHostFunction_execute registers ram (some sid0) (some accounts)
          Option.none (some xfers) gas)
        = ⟨HOST_CONTINUE, registers.set 7 REG_OK,
            (read_octets ram (registers.getD 10 0 % 2 ^ 32) C_MEMO_SIZE).2,
            Option.none,
            some (insertA accounts (sid0 % 2 ^ 32)
              { srcAcc with balance := srcAcc.balance - registers.getD 8 0 }),
            some (xfers ++ [⟨sid0 % 2 ^ 32, registers.getD 7 0 % 2 ^ 32,
              registers.getD 8 0, memo, registers.getD 9 0⟩]),
            gas - registers.getD 9 0 % 2 ^ 32⟩) := by
  have hmb := transfer_minbalance_eq srcAcc hitems hoct
  have hm128 : memo.length = C_MEMO_SIZE := by simp [hmlen, C_MEMO_SIZE]
  refine ⟨?_, ?_, ?_, ?_⟩
  · intro hdest
    rw [TransferHostFunction_execute]
    simp only [hmemo, hsrc, hdest, hmlen]
    norm_num
    rw [if_neg (Option.some_ne_none memo), if_pos hm128]
  · intro destAcc hdest hlow
    simp only [List.getD_eq_getElem?_getD] at hlow
    rw [TransferHostFunction_execute]
    simp only [hmemo, hsrc, hdest, hmlen]
    norm_num
    rw [if_neg (Option.some_ne_none memo), if_pos hm128, if_pos hlow]
  · intro destAcc hdest hlow hcash
    simp only [List.getD_eq_getElem?_getD] at hlow hcash
    rw [TransferHostFunction_execute]
    simp only [hmemo, hsrc, hdest, hmlen]
    norm_num
    rw [if_neg (Option.some_ne_none memo), if_pos hm128, if_neg hlow, hmb]
    rcases hcash with h | h
    · rw [if_pos h]
    · by_cases h1 : srcAcc.balance < registers[8]?.getD 0
      · rw [if_pos h1]
      · rw [if_neg h1, if_pos h]
  · intro destAcc hdest hlow hcash
    push_neg at hcash
    simp only [List.getD_eq_getElem?_getD] at hlow hcash
    rw [TransferHostFunction_execute]
    simp only [hmemo, hsrc, hdest, hmlen]
    norm_num
    rw [if_neg (Option.some_ne_none memo), if_pos hm128, if_neg hlow,
      if_neg (by omega), hmb, if_neg (by omega)]

set_option maxRecDepth 10000 in
/-- **C4 witness**: the amended OK branch applied at a concrete input —
`TRANSFER(dest=1, amount=5, gasLimit=7)` from service 0 with two accounts of
balance 1000 and a 20-gas counter — every hypothesis discharged by
evaluation.  The result deducts 5 from the caller, appends the deferred
transfer and subtracts `7 mod 2^32 = 7` gas. -/
theorem C4_transfer_contract_witness :
    (TransferHostFunction_execute [0,0,0,0,0,0,0,1,5,7,0,0,0] c1ram (some 0)
        (some [(0, c1acc), (1, c1acc)]) Option.none (some []) 20)
      = ⟨HOST_CONTINUE, List.set [0,0,0,0,0,0,0,1,5,7,0,0,0] 7 REG_OK,
          (read_octets c1ram (List.getD [0,0,0,0,0,0,0,1,5,7,0,0,0] 10 0 % 2 ^ 32)
            C_MEMO_SIZE).2,
          Option.none,
          some (insertA [(0, c1acc), (1, c1acc)] (0 % 2 ^ 32)
            { c1acc with
                balance := c1acc.balance - List.getD [0,0,0,0,0,0,0,1,5,7,0,0,0] 8 0 }),
          some ([] ++ [⟨0 % 2 ^ 32, List.getD [0,0,0,0,0,0,0,1,5,7,0,0,0] 7 0 % 2 ^ 32,
            List.getD [0,0,0,0,0,0,0,1,5,7,0,0,0] 8 0, List.replicate 128 0,
            List.getD [0,0,0,0,0,0,0,1,5,7,0,0,0] 9 0⟩]),
          20 - List.getD [0,0,0,0,0,0,0,1,5,7,0,0,0] 9 0 % 2 ^ 32⟩ :=
  (C4_transfer_contract [0,0,0,0,0,0,0,1,5,7,0,0,0] c1ram 0 [(0, c1acc), (1, c1acc)]
      c1acc [] 20 (List.replicate 128 0)
      (by
        show (read_octets c1ram (0 % 2 ^ 32) C_MEMO_SIZE).1
          = ({ data := some (List.replicate 128 0), faultAddress := 0 } : ReadResult)
        rw [c4_memo_read])
      (by decide) (by decide) (by decide) (by decide)).2.2.2
    c1acc (by decide) (by decide) (by decide)



/-! ## C8, C9: the step skeleton of next_step_impl — gas accounting and
code-tail padding -/

/-- `Status` (state_wrapper.rs): the terminal statuses `next_step_impl` can
set. -/
inductive StepStatus
  | halt
  | panic
  | fault
  | host
  | oog
deriving DecidableEq, Repr

/-- The observable outcome of one `next_step_impl` call: the returned Bool
(`continues`), the terminal status if one was set, and the resulting gas
counter and program counter. -/
structure NextStepOutcome where
  continues : Bool
  status : Option StepStatus
  gas : Nat
  pc : Nat
deriving DecidableEq, Repr

/-- The accumulation host-id allow list (state_wrapper.rs:664):
`id <= 5 || id == 100 || (14 <= id && id <= 26)`. -/
def hostIdAllowed (id : Nat) : Bool :=
  id ≤ 5 ∨ id = 100 ∨ (14 ≤ id ∧ id ≤ 26)

/-- `result.result_code as u8` (state_wrapper.rs:809): the `i32 → u8` cast. -/
def u8OfInt (c : Int) : Nat :=
  (c % 256).toNat

/-- The status match for a terminal instruction result
(state_wrapper.rs:809-816): HALT/PANIC/FAULT/HOST/OOG, default Panic. -/
def statusOfInstrCode (c : Nat) : StepStatus :=
  if c = RESULT_CODE_HALT.toNat then .halt
  else if c = RESULT_CODE_PANIC.toNat then .panic
  else if c = 2 then .fault
  else if c = 3 then .host
  else if c = 4 then .oog
  else .panic

/-- The status match for a terminal host result (state_wrapper.rs:791-797):
HALT/PANIC/FAULT/OOG, default Panic. -/
def statusOfHostCode (c : Nat) : StepStatus :=
  if c = RESULT_CODE_HALT.toNat then .halt
  else if c = RESULT_CODE_PANIC.toNat then .panic
  else if c = 2 then .fault
  else if c = 4 then .oog
  else .panic

/-- `next_step_impl` (state_wrapper.rs:593), as a step skeleton over the
dispatched handler outcomes.  `code`/`bitmask` are the loaded (extended)
image, `pc`/`gas` the current counters (`gas_left` is the `u32` counter, its
`saturating_sub`s are `Nat` subtraction).  The registry and handlers are the
step's dispatch data: `hasHandler` is `registry.get_handler(opcode).is_some`,
`instrCode`/`instrPcAfter` are the executed handler's
`result.result_code`/`context.program_counter` (the `InstructionContext`
passes `gas_remaining` by value, so instruction handlers cannot change
`state.gas_left`), `hostCallId` is the id the instruction wrote,
`hasHostFn` is `get_host_function(id).is_some`, and `hostCode`/`hostGas`
are the host handler's result code and the value of the `&mut u32` gas
counter after the host call returned (it starts the call at `gas - 1 - 10`).
Registers and RAM are carried by the handlers themselves and do not feed
back into the status/gas/pc bookkeeping embedded here. -/
def nextStep (code bitmask : List Nat) (pc gas : Nat)
    (hasHandler : Bool) (instrCode : Int) (instrPcAfter : Nat)
    (hostCallId : Nat) (hasAccContext : Bool) (hasHostFn : Bool)
    (hostCode : Nat) (hostGas : Nat) : NextStepOutcome :=
  if code.length = 0 then ⟨false, some .halt, gas, pc⟩
  else if code.length ≤ pc then ⟨false, some .halt, gas, pc⟩
  else if gas = 0 then ⟨false, some .oog, gas, pc⟩
  else
    let fskip := calculate_skip_distance pc bitmask
    let instructionLength := 1 + fskip
    if hasHandler = false then ⟨false, some .panic, gas, pc⟩
    else
      let gas1 := gas - 1
      if instrCode = 3 then
        if hasAccContext = true ∧ hostIdAllowed hostCallId = false then
          if gas1 < 10 then ⟨false, some .oog, gas1, pc⟩
          else ⟨true, Option.none, gas1 - 10, pc + instructionLength⟩
        else
          if hasHostFn = true then
            if gas1 < 10 then ⟨false, some .oog, gas1, pc⟩
            else
              if hostCode = 255 then ⟨true, Option.none, hostGas, pc + instructionLength⟩
              else ⟨false, some (statusOfHostCode hostCode), hostGas, pc⟩
          else ⟨true, Option.none, gas1, pc + instructionLength⟩
      else
        if instrCode ≠ -1 then
          ⟨false, some (statusOfInstrCode (u8OfInt instrCode)), gas1, pc⟩
        else if instrPcAfter ≠ pc then ⟨true, Option.none, gas1, instrPcAfter⟩
        else ⟨true, Option.none, gas1, pc + instructionLength⟩

theorem c8_zero_gas (code bitmask : List Nat) (pc gas : Nat)
    (hasHandler : Bool) (instrCode : Int) (instrPcAfter : Nat)
    (hostCallId : Nat) (hasAccContext : Bool) (hasHostFn : Bool)
    (hostCode : Nat) (hostGas : Nat)
    (hne : code.length ≠ 0) (hpc : pc < code.length) (hg : gas = 0) :
    nextStep code bitmask pc gas hasHandler instrCode instrPcAfter hostCallId
        hasAccContext hasHostFn hostCode hostGas
      = ⟨false, some .oog, gas, pc⟩ := by
  rw [nextStep, if_neg hne, if_neg (by omega), if_pos hg]

theorem c8_host_low_gas (code bitmask : List Nat) (pc gas : Nat)
    (hasHandler : Bool) (instrPcAfter : Nat)
    (hostCallId : Nat) (hasAccContext : Bool) (hasHostFn : Bool)
    (hostCode : Nat) (hostGas : Nat)
    (hne : code.length ≠ 0) (hpc : pc < code.length) (hg : gas ≠ 0)
    (hh : hasHandler = true) (hlow : gas - 1 < 10)
    (hdispatch : (hasAccContext = true ∧ hostIdAllowed hostCallId = false)
      ∨ hasHostFn = true) :
    nextStep code bitmask pc gas hasHandler 3 instrPcAfter hostCallId
        hasAccContext hasHostFn hostCode hostGas
      = ⟨false, some .oog, gas - 1, pc⟩ := by
  rw [nextStep, if_neg hne, if_neg (by omega), if_neg hg, hh]
  norm_num
  rcases hdispatch with h | h
  · rw [if_pos h, if_pos hlow]
  · by_cases hacc : hasAccContext = true ∧ hostIdAllowed hostCallId = false
    · rw [if_pos hacc, if_pos hlow]
    · rw [if_neg hacc, if_pos h, if_pos hlow]

theorem c8_monotone (code bitmask : List Nat) (pc gas : Nat)
    (hasHandler : Bool) (instrCode : Int) (instrPcAfter : Nat)
    (hostCallId : Nat) (hasAccContext : Bool) (hasHostFn : Bool)
    (hostCode : Nat) (hostGas : Nat)
    (hhost : hostGas ≤ gas - 1 - 10)
    (hcont : (nextStep code bitmask pc gas hasHandler instrCode instrPcAfter
      hostCallId hasAccContext hasHostFn hostCode hostGas).continues = true) :
    (nextStep code bitmask pc gas hasHandler instrCode instrPcAfter hostCallId
        hasAccContext hasHostFn hostCode hostGas).gas + 1 ≤ gas := by
  rw [nextStep] at hcont ⊢
  by_cases h0 : code.length = 0
  · rw [if_pos h0] at hcont
    simp at hcont
  rw [if_neg h0] at hcont ⊢
  by_cases h1 : code.length ≤ pc
  · rw [if_pos h1] at hcont
    simp at hcont
  rw [if_neg h1] at hcont ⊢
  by_cases h2 : gas = 0
  · rw [if_pos h2] at hcont
    simp at hcont
  rw [if_neg h2] at hcont ⊢
  by_cases h3 : hasHandler = false
  · rw [if_pos h3] at hcont
    simp at hcont
  rw [if_neg h3] at hcont ⊢
  by_cases h4 : instrCode = 3
  · rw [if_pos h4] at hcont ⊢
    by_cases h5 : hasAccContext = true ∧ hostIdAllowed hostCallId = false
    · rw [if_pos h5] at hcont ⊢
      by_cases h6 : gas - 1 < 10
      · rw [if_pos h6] at hcont
        simp at hcont
      · rw [if_neg h6]
        simp only []
        omega
    · rw [if_neg h5] at hcont ⊢
      by_cases h7 : hasHostFn = true
      · rw [if_pos h7] at hcont ⊢
        by_cases h6 : gas - 1 < 10
        · rw [if_pos h6] at hcont
          simp at hcont
        · rw [if_neg h6] at hcont ⊢
          by_cases h8 : hostCode = 255
          · rw [if_pos h8]
            simp only []
            omega
          · rw [if_neg h8] at hcont
            simp at hcont
      · rw [if_neg h7]
        simp only []
        omega
  · rw [if_neg h4] at hcont ⊢
    by_cases h9 : instrCode ≠ -1
    · rw [if_pos h9] at hcont
      simp at hcont
    · rw [if_neg h9]
      by_cases h10 : instrPcAfter ≠ pc
      · rw [if_pos h10]
        simp only []
        omega
      · rw [if_neg h10]
        simp only []
        omega

theorem transfer_gas_monotone (registers : List Nat) (ram : PvmRam)
    (serviceId? : Option Nat)
    (accounts? : Option (List (Nat × CompleteServiceAccount)))
    (serviceAccount? : Option CompleteServiceAccount)
    (xfers? : Option (List DeferredTransfer)) (gas : Nat) :
    (TransferHostFunction_execute registers ram serviceId? accounts?
      serviceAccount? xfers? gas).gas ≤ gas := by
  simp only [TransferHostFunction_execute]
  repeat' split
  all_goals simp only []
  all_goals omega

/-- **C8.**  Gas accounting of `next_step_impl` (state_wrapper.rs:593).
(1) A step that begins with 0 gas (with a dispatchable pc) terminates the
invocation with OutOfGas and leaves the counter at 0.  (2) A dispatched host
call (an executed instruction returning `RESULT_CODE_HOST` that reaches a
base-charge site: a known host id, or a disallowed id under an accumulation
context) with fewer than 10 gas remaining after the 1-gas instruction charge
terminates with OutOfGas.  (3) Over any step that does not terminate, a full
gas unit is gone: `gas_after + 1 <= gas_before` — the 1-gas charge happens
before dispatch, host calls charge 10 more, and the host body itself never
increases the counter (hypothesis `hostGas <= gas - 11`, established for the
only gas-mutating host, TRANSFER, by part 4).  Gas never underflows: every
subtraction in the embedding is the `Nat` (saturating `u32`) subtraction.
(4) `TransferHostFunction::execute` never increases the `u32` gas counter
it borrows. -/
theorem C8_gas_accounting :
    (∀ (code bitmask : List Nat) (pc gas : Nat) (hasHandler : Bool)
        (instrCode : Int) (instrPcAfter hostCallId : Nat)
        (hasAccContext hasHostFn : Bool) (hostCode hostGas : Nat),
      code.length ≠ 0 → pc < code.length → gas = 0 →
      nextStep code bitmask pc gas hasHandler instrCode instrPcAfter hostCallId
          hasAccContext hasHostFn hostCode hostGas
        = ⟨false, some .oog, gas, pc⟩) ∧
    (∀ (code bitmask : List Nat) (pc gas : Nat) (hasHandler : Bool)
        (instrPcAfter hostCallId : Nat) (hasAccContext hasHostFn : Bool)
        (hostCode hostGas : Nat),
      code.length ≠ 0 → pc < code.length → gas ≠ 0 → hasHandler = true →
      gas - 1 < 10 →
      ((hasAccContext = true ∧ hostIdAllowed hostCallId = false)
        ∨ hasHostFn = true) →
      nextStep code bitmask pc gas hasHandler 3 instrPcAfter hostCallId
          hasAccContext hasHostFn hostCode hostGas
        = ⟨false, some .oog, gas - 1, pc⟩) ∧
    (∀ (code bitmask : List Nat) (pc gas : Nat) (hasHandler : Bool)
        (instrCode : Int) (instrPcAfter hostCallId : Nat)
        (hasAccContext hasHostFn : Bool) (hostCode hostGas : Nat),
      hostGas ≤ gas - 1 - 10 →
      (nextStep code bitmask pc gas hasHandler instrCode instrPcAfter
        hostCallId hasAccContext hasHostFn hostCode hostGas).continues = true →
      (nextStep code bitmask pc gas hasHandler instrCode instrPcAfter hostCallId
          hasAccContext hasHostFn hostCode hostGas).gas + 1 ≤ gas) ∧
    (∀ (registers : List Nat) (ram : PvmRam) (serviceId? : Option Nat)
        (accounts? : Option (List (Nat × CompleteServiceAccount)))
        (serviceAccount? : Option CompleteServiceAccount)
        (xfers? : Option (List DeferredTransfer)) (gas : Nat),
      (TransferHostFunction_execute registers ram serviceId? accounts?
        serviceAccount? xfers? gas).gas ≤ gas) :=
  ⟨c8_zero_gas, c8_host_low_gas, c8_monotone, transfer_gas_monotone⟩

/-- **C8 witness**: the three hypothesis-bearing parts applied at concrete
inputs — a 0-gas step (OutOfGas), a host call at 5 gas (OutOfGas after the
1-gas charge), and a continuing jump step at 20 gas losing exactly 1 gas —
plus the TRANSFER monotonicity instance at an empty context. -/
theorem C8_gas_accounting_witness :
    (nextStep [0] [1] 0 0 false 0 0 0 false false 0 0
      = ⟨false, some .oog, 0, 0⟩) ∧
    (nextStep [10, 0] [1, 1] 0 5 true 3 0 7 false true 255 0
      = ⟨false, some .oog, 4, 0⟩) ∧
    ((nextStep [10, 0] [1, 1] 0 20 true (-1) 5 0 false false 0 0).gas + 1 ≤ 20) ∧
    ((TransferHostFunction_execute [] c1ram Option.none Option.none Option.none
      Option.none 5).gas ≤ 5) :=
  ⟨C8_gas_accounting.1 [0] [1] 0 0 false 0 0 0 false false 0 0
      (by decide) (by decide) rfl,
   C8_gas_accounting.2.1 [10, 0] [1, 1] 0 5 true 0 7 false true 255 0
      (by decide) (by decide) (by decide) rfl (by decide) (Or.inr rfl),
   C8_gas_accounting.2.2.1 [10, 0] [1, 1] 0 20 true (-1) 5 0 false false 0 0
      (by decide) (by decide),
   C8_gas_accounting.2.2.2 [] c1ram Option.none Option.none Option.none
      Option.none 5⟩

/-- The code/bitmask extension of `parse_program` (parser.rs:84-90):
`extended_code = vec![0; code_len + 16]` with `code` copied into the prefix,
`extended_bitmask = vec![1; code_len + 16]` with `bitmask` copied into the
prefix — each cell reads the original buffer below its length and the fill
value above it. -/
def extendCodeAndBitmask (code bitmask : List Nat) : List Nat × List Nat :=
  ((List.range (code.length + 16)).map fun i => if i < code.length then code.getD i 0 else 0,
   (List.range (code.length + 16)).map fun i => if i < bitmask.length then bitmask.getD i 0 else 1)

theorem getD_range_map (n : Nat) (f : Nat → Nat) (i d : Nat) :
    ((List.range n).map f).getD i d = if i < n then f i else d := by
  rw [List.getD_eq_getElem?_getD, List.getElem?_map]
  by_cases h : i < n
  · rw [List.getElem?_range h]
    simp [h]
  · rw [List.getElem?_eq_none (by simpa using h)]
    simp [h]

theorem c9_extend_shape (code bitmask : List Nat)
    (hbm : bitmask.length ≤ code.length + 16) :
    (extendCodeAndBitmask code bitmask).1 = code ++ List.replicate 16 0 ∧
    (extendCodeAndBitmask code bitmask).2
      = bitmask ++ List.replicate (code.length + 16 - bitmask.length) 1 := by
  constructor
  · apply List.ext_getElem?
    intro i
    rw [extendCodeAndBitmask]
    simp only []
    rw [List.getElem?_map]
    by_cases h : i < code.length + 16
    · rw [List.getElem?_range h]
      by_cases h2 : i < code.length
      · rw [List.getElem?_append_left h2, List.getElem?_eq_getElem h2]
        simp [h2, List.getD_eq_getElem?_getD, List.getElem?_eq_getElem h2]
      · rw [List.getElem?_append_right (by omega),
          List.getElem?_replicate_of_lt (by omega)]
        simp [h2]
    · rw [List.getElem?_eq_none (by simpa using h),
        List.getElem?_eq_none (by simp; omega)]
      rfl
  · apply List.ext_getElem?
    intro i
    rw [extendCodeAndBitmask]
    simp only []
    rw [List.getElem?_map]
    by_cases h : i < code.length + 16
    · rw [List.getElem?_range h]
      by_cases h2 : i < bitmask.length
      · rw [List.getElem?_append_left h2, List.getElem?_eq_getElem h2]
        simp [h2, List.getD_eq_getElem?_getD, List.getElem?_eq_getElem h2]
      · rw [List.getElem?_append_right (by omega),
          List.getElem?_replicate_of_lt (by omega)]
        simp [h2]
    · rw [List.getElem?_eq_none (by simpa using h),
        List.getElem?_eq_none (by simp; omega)]
      rfl

theorem skipLoop_le (bm : List Nat) (pc bound : Nat)
    (hone : ∀ i, bound ≤ i → bm.length ≤ i ∨ bm.getD i 0 = 1) :
    ∀ k j, 25 - j ≤ k → 1 ≤ j → pc + j ≤ bound →
      skipLoop pc bm j ≤ bound - pc - 1 := by
  intro k
  induction k with
  | zero =>
      intro j hk hj hle
      rw [skipLoop, dif_neg (by omega)]
      omega
  | succ n ih =>
      intro j hk hj hle
      by_cases h24 : j ≤ 24
      · rw [skipLoop, dif_pos h24]
        by_cases hcond : bm.length ≤ pc + j ∨ bm.getD (pc + j) 0 = 1
        · rw [if_pos hcond]
          omega
        · rw [if_neg hcond]
          have hlt : pc + j < bound := by
            rcases Nat.lt_or_ge (pc + j) bound with h | h
            · exact h
            · exact absurd (hone (pc + j) h) hcond
          exact ih (j + 1) (by omega) (by omega) (by omega)
      · rw [skipLoop, dif_neg h24]
        omega

theorem c9_fskip_bound (code bitmask : List Nat) (pc : Nat)
    (hbm : bitmask.length ≤ code.length + 16) (hpc : pc < code.length + 16) :
    pc + 1 + calculate_skip_distance pc (extendCodeAndBitmask code bitmask).2
      ≤ code.length + 16 := by
  have hone : ∀ i, bitmask.length ≤ i →
      (extendCodeAndBitmask code bitmask).2.length ≤ i ∨
        (extendCodeAndBitmask code bitmask).2.getD i 0 = 1 := by
    intro i hi
    by_cases h : i < code.length + 16
    · right
      rw [extendCodeAndBitmask]
      simp only []
      rw [getD_range_map]
      rw [if_pos h, if_neg (by omega)]
    · left
      rw [extendCodeAndBitmask]
      simp only [List.length_map, List.length_range]
      omega
  rw [calculate_skip_distance]
  by_cases hstart : bitmask.length ≤ pc + 1
  · have h0 : skipLoop pc (extendCodeAndBitmask code bitmask).2 1 = 0 := by
      rw [skipLoop, dif_pos (by norm_num), if_pos (hone (pc + 1) hstart)]
    omega
  · have := skipLoop_le (extendCodeAndBitmask code bitmask).2 pc bitmask.length
      hone 24 1 (by omega) (by omega) (by omega)
    omega

theorem c9_past_end_halt (code bitmask : List Nat) (pc gas : Nat)
    (hasHandler : Bool) (instrCode : Int) (instrPcAfter hostCallId : Nat)
    (hasAccContext hasHostFn : Bool) (hostCode hostGas : Nat)
    (hne : code.length ≠ 0) (hpc : code.length ≤ pc) :
    nextStep code bitmask pc gas hasHandler instrCode instrPcAfter hostCallId
        hasAccContext hasHostFn hostCode hostGas
      = ⟨false, some .halt, gas, pc⟩ := by
  rw [nextStep, if_neg hne, if_pos hpc]

/-- **C9.**  Code-tail padding.  (1) `parse_program` extends the code image
with exactly 16 zero bytes and the bitmask with one-bits up to the extended
length (parser.rs:84-90).  (2) Over the extended bitmask, the operand span of
an instruction at any pc inside the extended image stays inside it:
`pc + 1 + Fskip(pc) <= code_len + 16` — the all-ones tail stops the skip scan
no later than the original bitmask\'s end, so operand fetch never reads out
of bounds.  (3) A step whose program counter has run past the end of the
loaded (extended) code image halts cleanly: `next_step_impl` sets `Halt`,
not `Panic` (state_wrapper.rs:600-604). -/
theorem C9_code_tail_padding :
    (∀ (code bitmask : List Nat), bitmask.length ≤ code.length + 16 →
      (extendCodeAndBitmask code bitmask).1 = code ++ List.replicate 16 0 ∧
      (extendCodeAndBitmask code bitmask).2
        = bitmask ++ List.replicate (code.length + 16 - bitmask.length) 1) ∧
    (∀ (code bitmask : List Nat) (pc : Nat),
      bitmask.length ≤ code.length + 16 → pc < code.length + 16 →
      pc + 1 + calculate_skip_distance pc (extendCodeAndBitmask code bitmask).2
        ≤ code.length + 16) ∧
    (∀ (code bitmask : List Nat) (pc gas : Nat) (hasHandler : Bool)
        (instrCode : Int) (instrPcAfter hostCallId : Nat)
        (hasAccContext hasHostFn : Bool) (hostCode hostGas : Nat),
      code.length ≠ 0 → code.length ≤ pc →
      nextStep code bitmask pc gas hasHandler instrCode instrPcAfter hostCallId
          hasAccContext hasHostFn hostCode hostGas
        = ⟨false, some .halt, gas, pc⟩) :=
  ⟨c9_extend_shape, c9_fskip_bound, c9_past_end_halt⟩

/-- **C9 witness**: the three parts applied at concrete inputs — a one-byte
program\'s extension shape, the operand-span bound at pc 0, and a halting
step at pc 5 past a one-byte code image. -/
theorem C9_code_tail_padding_witness :
    ((extendCodeAndBitmask [7] [1]).1 = [7] ++ List.replicate 16 0 ∧
     (extendCodeAndBitmask [7] [1]).2
       = [1] ++ List.replicate ((7 :: List.nil).length + 16 - 1) 1) ∧
    (0 + 1 + calculate_skip_distance 0 (extendCodeAndBitmask [7] [1]).2
      ≤ (7 :: List.nil).length + 16) ∧
    (nextStep [0] [1] 5 9 false 0 0 0 false false 0 0
      = ⟨false, some .halt, 9, 5⟩) :=
  ⟨C9_code_tail_padding.1 [7] [1] (by decide),
   C9_code_tail_padding.2.1 [7] [1] 0 (by decide) (by decide),
   C9_code_tail_padding.2.2 [0] [1] 5 9 false 0 0 0 false false 0 0
     (by decide) (by decide)⟩


end PvmRust
